import Mathlib

/-!
Verification of the reStructuredText scanner (package scan: scan.go, enum.go)
against its natural-language specification.

The scanner is shallowly embedded: the byte source (io.ByteReader) is a
`List Nat` of remaining bytes, the scanner state is an explicit structure,
and every Go function becomes a Lean function on that structure.  Go loops
become fuel-indexed recursions (`Option` result, `none` = fuel ran out);
every straight-line function is fuel-free.  Bytes are `Nat` (0..255), runes
are `Int` so that the scanner's `eof = -1` sentinel keeps its value.
-/

namespace scan

/-- Token types of the scanner (`Type` in scan.go). -/
inductive Ty where
  | EOF | Error | BlankLine | Space | Title | SectionAdornment | Transition
  | Paragraph | Bullet | Enum | BlockQuote | Attribution | Comment
  | HyperlinkStart | HyperlinkPrefix | HyperlinkQuote | HyperlinkName
  | HyperlinkSuffix | HyperlinkURI | InlineReferenceOpen | InlineReferenceText
  | InlineReferenceClose
  deriving DecidableEq, Repr

/-- Token returned from the scanner (`Token` in scan.go); `text` is the byte
slice of the item. -/
structure Token where
  typ : Ty
  line : Nat
  text : List Nat
  deriving DecidableEq, Repr

/-- Enumeration kinds (`enumType` in enum.go). -/
inductive enumType where
  | none | arabic | upperAlpha | lowerAlpha | upperRoman | lowerRoman
  deriving DecidableEq, Repr

/-- Interpreted enumerator (`enum` in enum.go). -/
structure enum where
  typ : enumType
  val : Int
  auto : Bool
  deriving DecidableEq, Repr

/-- Scanner state (`Scanner` in scan.go).  `reader` is the not-yet-read tail
of the byte source; the Go fields `name` (diagnostics only) and `buf` (the
re-used I/O scratch buffer, local to loadLine) have no observable effect and
are not carried.  `types0`/`types1` are Go's `types[0]`/`types[1]`. -/
structure Scanner where
  reader : List Nat
  done : Bool
  input : List Nat
  lastRune : Int
  lastWidth : Nat
  line : Nat
  pos : Nat
  start : Nat
  token : Token
  types0 : Ty
  types1 : Ty
  indent : Int
  lastMarkup : Ty
  lastEnum : enum
  deriving DecidableEq, Repr

/-- The eof rune sentinel (-1). -/
def eof : Int := -1

/-- Bytes of an ASCII string literal (all literals fed through this are ASCII,
so this is their UTF-8 encoding). -/
def ascii (s : String) : List Nat := s.data.map Char.toNat

/-- unicode.IsSpace.  The White_Space property is a fixed small set, listed
here in full, so this is exact. -/
def isSpaceRune (r : Int) : Bool :=
  r = 9 ∨ r = 10 ∨ r = 11 ∨ r = 12 ∨ r = 13 ∨ r = 32 ∨ r = 0x85 ∨ r = 0xA0 ∨
  r = 0x1680 ∨ (0x2000 ≤ r ∧ r ≤ 0x200A) ∨ r = 0x2028 ∨ r = 0x2029 ∨
  r = 0x202F ∨ r = 0x205F ∨ r = 0x3000

/-- notSpace from scan.go. -/
def notSpace (r : Int) : Bool := !(isSpaceRune r)

/-- unicode.IsDigit modelled on the Latin-1 range: the only decimal-digit
code points below U+0100 are the ASCII digits; the tables above Latin-1 are
elided. -/
def isDigitRune (r : Int) : Bool := 48 ≤ r ∧ r ≤ 57

/-- unicode.IsLetter modelled on the Latin-1 range (Go's fast path); letter
code points above U+00FF are elided. -/
def isLetterRune (r : Int) : Bool :=
  (65 ≤ r ∧ r ≤ 90) ∨ (97 ≤ r ∧ r ≤ 122) ∨ r = 0xAA ∨ r = 0xB5 ∨ r = 0xBA ∨
  (0xC0 ≤ r ∧ r ≤ 0xD6) ∨ (0xD8 ≤ r ∧ r ≤ 0xF6) ∨ (0xF8 ≤ r ∧ r ≤ 0xFF)

/-- unicode.IsLower modelled on the Latin-1 range. -/
def isLowerRune (r : Int) : Bool :=
  (97 ≤ r ∧ r ≤ 122) ∨ r = 0xB5 ∨ (0xDF ≤ r ∧ r ≤ 0xF6) ∨ (0xF8 ≤ r ∧ r ≤ 0xFF)

/-- Acceptance table of Go's utf8 decoder: for a leading byte, the sequence
size and the admissible range of the second byte. -/
def utf8Accept (b0 : Nat) : Option (Nat × Nat × Nat) :=
  if 0xC2 ≤ b0 ∧ b0 ≤ 0xDF then some (2, 0x80, 0xBF)
  else if b0 = 0xE0 then some (3, 0xA0, 0xBF)
  else if b0 = 0xED then some (3, 0x80, 0x9F)
  else if 0xE1 ≤ b0 ∧ b0 ≤ 0xEF then some (3, 0x80, 0xBF)
  else if b0 = 0xF0 then some (4, 0x90, 0xBF)
  else if b0 = 0xF4 then some (4, 0x80, 0x8F)
  else if 0xF1 ≤ b0 ∧ b0 ≤ 0xF3 then some (4, 0x80, 0xBF)
  else none

/-- utf8.DecodeRuneInString: first rune of the byte list and its width.
Invalid input yields (RuneError = 0xFFFD, 1); empty input yields width 0. -/
def decodeRune : List Nat → Int × Nat
  | [] => (0xFFFD, 0)
  | b0 :: rest =>
    if b0 < 0x80 then ((b0 : Int), 1)
    else
      match utf8Accept b0 with
      | none => (0xFFFD, 1)
      | some (sz, lo, hi) =>
        match rest with
        | [] => (0xFFFD, 1)
        | b1 :: rest1 =>
          if b1 < lo ∨ hi < b1 then (0xFFFD, 1)
          else if sz = 2 then (((b0 % 0x20) * 0x40 + b1 % 0x40 : Nat), 2)
          else
            match rest1 with
            | [] => (0xFFFD, 1)
            | b2 :: rest2 =>
              if b2 < 0x80 ∨ 0xBF < b2 then (0xFFFD, 1)
              else if sz = 3 then
                (((b0 % 0x10) * 0x1000 + (b1 % 0x40) * 0x40 + b2 % 0x40 : Nat), 3)
              else
                match rest2 with
                | [] => (0xFFFD, 1)
                | b3 :: _ =>
                  if b3 < 0x80 ∨ 0xBF < b3 then (0xFFFD, 1)
                  else
                    (((b0 % 8) * 0x40000 + (b1 % 0x40) * 0x1000 +
                      (b2 % 0x40) * 0x40 + b3 % 0x40 : Nat), 4)

/-- strings.IndexFunc: byte index of the first rune satisfying p, else -1.
The fuel is the byte length, enough for every rune (each is at least one
byte wide). -/
def indexFuncAux (p : Int → Bool) : Nat → List Nat → Nat → Int
  | 0, _, _ => -1
  | _, [], _ => -1
  | fuel + 1, s, i =>
    let d := decodeRune s
    if p d.1 then (i : Int) else indexFuncAux p fuel (s.drop d.2) (i + d.2)

/-- strings.IndexFunc over a byte list. -/
def indexFunc (p : Int → Bool) (s : List Nat) : Int := indexFuncAux p s.length s 0

/-- strings.ContainsFunc. -/
def containsFunc (p : Int → Bool) (s : List Nat) : Bool := indexFunc p s ≥ 0

/-- Rune sequence of a byte list, decoded the way Go's range-over-string
does (RuneError per invalid byte). -/
def decodeRunesAux : Nat → List Nat → List Int
  | 0, _ => []
  | _, [] => []
  | fuel + 1, s => let d := decodeRune s; d.1 :: decodeRunesAux fuel (s.drop d.2)

/-- Runes of a byte list. -/
def runesOf (s : List Nat) : List Int := decodeRunesAux s.length s

/-- strings.TrimLeft(s, "-"): the cutset is ASCII, so it drops leading
'-' bytes. -/
def trimLeftDash (s : List Nat) : List Nat := s.dropWhile (fun b => b = 45)

/-- Leading-whitespace removal of strings.TrimSpace (rune-wise). -/
def dropLeadingSpace : Nat → List Nat → List Nat
  | 0, s => s
  | _, [] => []
  | fuel + 1, s =>
    let d := decodeRune s
    if isSpaceRune d.1 then dropLeadingSpace fuel (s.drop d.2) else s

/-- End position (in bytes) of the last non-space rune, scanning forward;
used to drop the trailing all-space rune suffix for strings.TrimSpace. -/
def trimRightEnd : Nat → List Nat → Nat → Nat → Nat
  | 0, _, _, keep => keep
  | _, [], _, keep => keep
  | fuel + 1, s, i, keep =>
    let d := decodeRune s
    trimRightEnd fuel (s.drop d.2) (i + d.2) (if isSpaceRune d.1 then keep else i + d.2)

/-- strings.TrimSpace: maximal whitespace prefix and suffix removed.  The
suffix is located by a forward scan (Go decodes the tail backwards; the two
agree on UTF-8 input, and the scanner only consults the result for emptiness
and dash membership). -/
def trimSpace (s : List Nat) : List Nat :=
  let s2 := dropLeadingSpace s.length s
  s2.take (trimRightEnd s2.length s2 0 0)

/-- strings.TrimSuffix(s, "\n"). -/
def trimSuffixNL (s : List Nat) : List Nat :=
  if [10].isSuffixOf s then s.take (s.length - 1) else s

/-- strings.IndexAny(s, ".)"): the set is ASCII, so it is the index of the
first '.' or ')' byte, else -1. -/
def indexAny (s : List Nat) : Int :=
  match s.findIdx? (fun b => b = 46 ∨ b = 41) with
  | some i => (i : Int)
  | none => -1

/-- SplitN(s, "\n", 2)[0]: the prefix before the first newline. -/
def firstLine (s : List Nat) : List Nat := s.takeWhile (fun b => b ≠ 10)

/-- Loop body of loadLine: pull bytes from the reader until error or a
newline was pulled, dropping '\r'.  Returns the built buffer, the remaining
reader, and whether the source ended (ReadByte error). -/
def readLine : List Nat → List Nat × List Nat × Bool
  | [] => ([], [], true)
  | c :: rest =>
    if c = 10 then ([10], rest, false)
    else if c = 13 then readLine rest
    else
      let r := readLine rest
      (c :: r.1, r.2.1, r.2.2)

/-- loadLine from scan.go: read the next line into the input, resetting the
buffer when nothing is pending (start = pos). -/
def loadLine (l : Scanner) : Scanner :=
  let r := readLine l.reader
  let l := { l with reader := r.2.1, done := l.done || r.2.2 }
  if l.start = l.pos then { l with input := r.1, start := 0, pos := 0 }
  else { l with input := l.input ++ r.1 }

/-- The refill step at the head of readRune: load a line when the cursor
sits at the end of the buffer and the source is not exhausted. -/
def refill (l : Scanner) : Scanner :=
  if !l.done ∧ l.pos = l.input.length then loadLine l else l

/-- readRune from scan.go: refill on demand, then decode at pos (eof with
width 0 when exhausted). -/
def readRune (l : Scanner) : (Int × Nat) × Scanner :=
  let l := refill l
  if l.input.length = l.pos then ((eof, 0), l)
  else (decodeRune (l.input.drop l.pos), l)

/-- next from scan.go: consume one rune, recording lastRune and lastWidth. -/
def next (l : Scanner) : Scanner :=
  let r := readRune l
  { r.2 with lastRune := r.1.1, lastWidth := r.1.2, pos := r.2.pos + r.1.2 }

/-- peek from scan.go: decode without advancing (a refill it triggers does
persist in the state, as through the Go pointer receiver). -/
def peek (l : Scanner) : Int × Scanner :=
  let r := readRune l
  (r.1.1, r.2)

/-- emit from scan.go: on BlankLine bump the line counter and reset
lastEnum; reset indent when the item starts the buffer on a non-space; slice
the token text out of [start, pos) and shift the types window.  The byte
probed for the indent reset is read with a default of 0 (Go indexes the
buffer directly; at every emission site at least one rune is pending, so the
index is in range). -/
def emit (l : Scanner) (t : Ty) : Scanner :=
  let l :=
    if t = Ty.BlankLine then
      { l with line := l.line + 1, lastEnum := { typ := enumType.none, val := 0, auto := false } }
    else l
  let l :=
    if l.start = 0 ∧ notSpace ((l.input.getD l.start 0 : Int)) then { l with indent := 0 } else l
  { l with token := { typ := t, line := l.line, text := (l.input.take l.pos).drop l.start },
           types0 := l.types1, types1 := t, start := l.pos }

/-- ignore from scan.go: skip the pending input, counting its newlines. -/
def ignore (l : Scanner) : Scanner :=
  { l with line := l.line + ((l.input.take l.pos).drop l.start).count 10, start := l.pos }

/-- Diagnostic text of the scanner's only error. -/
def quoteErrorText : List Nat := ascii "expected hyperlink or inline reference before quote"

/-- errorf from scan.go: store an Error token (whose line field receives
l.start, exactly as the Go code passes it) and empty the buffered input. -/
def errorf (l : Scanner) (text : List Nat) : Scanner :=
  { l with token := { typ := Ty.Error, line := l.start, text := text },
           start := 0, pos := 0, input := [] }

/-- Constant ".." (comment marker). -/
def comment : List Nat := ascii ".."

/-- Constant ".. _". -/
def hyperlinkStart : List Nat := ascii ".. _"

/-- Constant "__ ". -/
def anonHyperlinkStart : List Nat := ascii "__ "

/-- Constant "__:". -/
def anonHyperlinkPrefix : List Nat := ascii "__:"

/-- Bullet runes * + - and U+2022, U+2023, U+2043. -/
def bullets : List Int := [42, 43, 45, 0x2022, 0x2023, 0x2043]

/-- Adornment runes: the ASCII string of scan.go's `adornments` constant,
as code points. -/
def adornments : List Int :=
  [33, 34, 35, 36, 37, 38, 39, 40, 41, 42, 43, 44, 45, 46, 47, 58, 59, 60,
   61, 62, 63, 64, 91, 92, 93, 94, 95, 96, 123, 124, 125, 126]

/-- Constant minSection = 2. -/
def minSection : Nat := 2

/-- Constant minTransition = 4. -/
def minTransition : Nat := 4

/-- Probe loop `for r != eof && r != '\n' { r = l.next() }` shared by the
classifier predicates; returns the loop's final r with the advanced state. -/
def skipToNL : Nat → Int → Scanner → Option (Int × Scanner)
  | 0, _, _ => none
  | fuel + 1, r, l =>
    if r = eof ∨ r = 10 then some (r, l)
    else
      let l2 := next l
      skipToNL fuel l2.lastRune l2

/-- lexEndOfLine from scan.go: emit, then absorb one end-of-line character
if present. -/
def lexEndOfLine (l : Scanner) (typ : Ty) : Scanner :=
  let l := emit l typ
  let p := peek l
  if p.1 = 10 then ignore { p.2 with pos := p.2.pos + 1 } else p.2

/-- lexUntilTerminator from scan.go. -/
def lexUntilTerminator : Nat → Scanner → Ty → Option Scanner
  | 0, _, _ => none
  | fuel + 1, l, typ =>
    let p := peek l
    if p.1 = eof then some (emit p.2 typ)
    else if p.1 = 10 then some (lexEndOfLine p.2 typ)
    else lexUntilTerminator fuel (next p.2) typ

/-- lexBlankLine from scan.go. -/
def lexBlankLine (l : Scanner) : Scanner :=
  let l := if l.types1 = Ty.Comment then { l with lastMarkup := Ty.EOF } else l
  emit l Ty.BlankLine

/-- Loop of lexSpace: consume whitespace runes, counting them in i
(initially 1, for the rune the dispatcher already consumed). -/
def lexSpaceLoop : Nat → Scanner → Nat → Option (Scanner × Nat)
  | 0, _, _ => none
  | fuel + 1, l, i =>
    let p := peek l
    if isSpaceRune p.1 then lexSpaceLoop fuel (next p.2) (i + 1)
    else some (p.2, i)

/-- lexSpace from scan.go: set indent to the run's rune count at
start-of-line, then emit with the caller's type. -/
def lexSpace (fuel : Nat) (l : Scanner) (typ : Ty) : Option Scanner :=
  (lexSpaceLoop fuel l 1).map fun r =>
    let l := r.1
    let l :=
      if l.start = 0 ∨ l.input.getD (l.start - 1) 0 = 10 then { l with indent := (r.2 : Int) }
      else l
    emit l typ

/-- lexAttribution from scan.go. -/
def lexAttribution (fuel : Nat) (l : Scanner) : Option Scanner :=
  lexUntilTerminator fuel { l with indent := 0 } Ty.Attribution

/-- lexBullet from scan.go. -/
def lexBullet (l : Scanner) : Scanner :=
  lexEndOfLine { l with lastMarkup := Ty.Bullet } Ty.Bullet

/-- lexComment from scan.go. -/
def lexComment (l : Scanner) : Scanner :=
  lexEndOfLine (next { l with lastMarkup := Ty.Comment }) Ty.Comment

/-- lexTransition from scan.go. -/
def lexTransition (fuel : Nat) (l : Scanner) : Option Scanner :=
  lexUntilTerminator fuel { l with lastMarkup := Ty.Transition } Ty.Transition

/-- lexSection from scan.go. -/
def lexSection (fuel : Nat) (l : Scanner) : Option Scanner :=
  lexUntilTerminator fuel { l with lastMarkup := Ty.SectionAdornment } Ty.SectionAdornment

/-- lexHyperlinkStart from scan.go. -/
def lexHyperlinkStart (l : Scanner) : Scanner :=
  emit (next { l with lastMarkup := Ty.HyperlinkStart }) Ty.HyperlinkStart

/-- lexHyperlinkPrefix from scan.go. -/
def lexHyperlinkPrefix (l : Scanner) : Scanner :=
  let l := if anonHyperlinkPrefix.isPrefixOf (l.input.drop l.start) then next l else l
  emit l Ty.HyperlinkPrefix

/-- lexInlineReferenceClose from scan.go. -/
def lexInlineReferenceClose (l : Scanner) : Scanner :=
  let l := if l.lastRune = 96 then next l else l
  lexEndOfLine l Ty.InlineReferenceClose

/-- lexQuote from scan.go. -/
def lexQuote (l : Scanner) : Scanner :=
  if l.types1 = Ty.HyperlinkPrefix ∨ l.types1 = Ty.HyperlinkName then emit l Ty.HyperlinkQuote
  else if l.types1 = Ty.Space then emit l Ty.InlineReferenceOpen
  else if l.types1 = Ty.InlineReferenceText then lexInlineReferenceClose l
  else errorf l quoteErrorText

/-- lexHyperlinkName from scan.go: an unescaped, unquoted ':' or a backtick
or eof ends the name; a newline is absorbed via lexEndOfLine. -/
def lexHyperlinkName : Nat → Scanner → Option Scanner
  | 0, _ => none
  | fuel + 1, l =>
    let p := peek l
    if p.1 = 58 then
      if p.2.lastRune ≠ 92 ∧ p.2.types1 ≠ Ty.HyperlinkQuote then some (emit p.2 Ty.HyperlinkName)
      else lexHyperlinkName fuel (next p.2)
    else if p.1 = 96 ∨ p.1 = eof then some (emit p.2 Ty.HyperlinkName)
    else if p.1 = 10 then some (lexEndOfLine p.2 Ty.HyperlinkName)
    else lexHyperlinkName fuel (next p.2)

/-- lexInlineReferenceText from scan.go.  Note the '_' case: when the
underscore is not within the last two buffered bytes the Go loop body does
nothing and re-peeks the same position; the recursion mirrors that with an
unchanged state. -/
def lexInlineReferenceText : Nat → Scanner → Option Scanner
  | 0, _ => none
  | fuel + 1, l =>
    let p := peek l
    if p.1 = 95 then
      if (p.2.pos : Int) > (p.2.input.length : Int) - 3 then
        some (emit p.2 Ty.InlineReferenceText)
      else lexInlineReferenceText fuel p.2
    else if p.1 = 96 ∨ p.1 = eof then some (emit p.2 Ty.InlineReferenceText)
    else if p.1 = 10 then some (lexEndOfLine p.2 Ty.InlineReferenceText)
    else lexInlineReferenceText fuel (next p.2)

/-- lexTitle from scan.go. -/
def lexTitle (fuel : Nat) (l : Scanner) : Option Scanner :=
  lexUntilTerminator fuel { l with lastMarkup := Ty.Title } Ty.Title

/-- lexParagraph from scan.go. -/
def lexParagraph (fuel : Nat) (l : Scanner) : Option Scanner :=
  let l := if l.start = 0 ∧ l.indent = 0 then { l with lastMarkup := Ty.EOF } else l
  lexUntilTerminator fuel l Ty.Paragraph

/-- lexEnum from enum.go. -/
def lexEnum : Nat → Scanner → Option Scanner
  | 0, _ => none
  | fuel + 1, l =>
    let p := peek l
    if p.1 = 10 then some (lexEndOfLine p.2 Ty.Enum)
    else if p.1 = eof ∨ isSpaceRune p.1 then some (emit p.2 Ty.Enum)
    else lexEnum fuel (next p.2)

/-- isBlockQuote from scan.go. -/
def isBlockQuote (l : Scanner) : Bool :=
  if l.lastMarkup ≠ Ty.EOF then false
  else
    let ok :=
      match l.types0 with
      | Ty.Paragraph | Ty.Attribution | Ty.Comment => true
      | _ => !(l.types1 ≠ Ty.Paragraph ∨ (l.types1 ≠ Ty.BlankLine ∧ l.indent > 0))
    if !ok then false
    else
      let i := indexFunc notSpace (l.input.drop l.start)
      i > 0 ∧ i ≠ l.indent

/-- isAttribution from scan.go: dash prefix, dash-free trimmed body, and a
next line that is empty or matches the indent (probed with cursor
save/restore). -/
def isAttribution (fuel : Nat) (l : Scanner) : Option (Bool × Scanner) :=
  if l.types0 = Ty.Attribution ∧ l.types1 = Ty.Space then some (true, l)
  else if l.types1 = Ty.BlockQuote then some (false, l)
  else
    let s := l.input.drop l.start
    if !((ascii "--").isPrefixOf s ∨ [0xE2, 0x80, 0x94].isPrefixOf s) then some (false, l)
    else
      let s2 := trimSpace (trimLeftDash s)
      if s2 = [] ∨ s2.contains 45 then some (false, l)
      else
        let pos := l.pos
        let lastWidth := l.lastWidth
        match skipToNL fuel 0 l with
        | none => none
        | some rl =>
          let l := next rl.2
          let i := indexFunc notSpace (l.input.drop (l.pos - 1))
          some (i < 1 ∨ i = l.indent, { l with pos := pos, lastWidth := lastWidth })

/-- isBullet from scan.go (the peek only happens when the rune is a bullet,
mirroring Go's short-circuit). -/
def isBullet (l : Scanner) (r : Int) : Bool × Scanner :=
  if bullets.contains r then
    let p := peek l
    (isSpaceRune p.1, p.2)
  else (false, l)

/-- isComment from scan.go. -/
def isComment (l : Scanner) : Bool :=
  if l.types1 = Ty.Title then false
  else
    let s := l.input.drop l.start
    if hyperlinkStart.isPrefixOf s ∧ s.length > hyperlinkStart.length then false
    else (comment ++ [32]).isPrefixOf s ∨ (comment ++ [10]).isPrefixOf s

/-- isTransition from scan.go. -/
def isTransition (fuel : Nat) (l : Scanner) (r : Int) : Option (Bool × Scanner) :=
  let tyOK :=
    match l.types1 with
    | Ty.EOF | Ty.BlankLine => true
    | Ty.Space => l.types0 = Ty.BlankLine
    | _ => false
  if !tyOK then some (false, l)
  else if !(adornments.contains r) then some (false, l)
  else
    let s := trimSuffixNL (l.input.drop l.start)
    if s.length < minTransition ∨ s ≠ List.replicate s.length r.toNat then some (false, l)
    else
      let pos := l.pos
      let lastWidth := l.lastWidth
      match skipToNL fuel r l with
      | none => none
      | some rl =>
        let p := peek rl.2
        let l := { p.2 with pos := pos, lastWidth := lastWidth }
        if p.1 ≠ eof ∧ p.1 ≠ 10 then some (false, l) else some (true, l)

/-- isSection from scan.go. -/
def isSection (l : Scanner) (r : Int) : Bool :=
  if !(adornments.contains r) then false
  else
    let s := firstLine (l.input.drop (l.pos - 1))
    s.length ≥ minSection ∧ s = List.replicate s.length r.toNat

/-- isSectionAdornment from scan.go. -/
def isSectionAdornment (fuel : Nat) (l : Scanner) (r : Int) : Option (Bool × Scanner) :=
  if l.lastMarkup = Ty.Title then some (true, l)
  else if !(isSection l r) then some (false, l)
  else if l.types1 ≠ Ty.BlankLine then some (true, l)
  else
    let pos := l.pos
    let lastWidth := l.lastWidth
    match skipToNL fuel r l with
    | none => none
    | some rl =>
      let p := peek rl.2
      some (p.1 ≠ 10, { p.2 with pos := pos, lastWidth := lastWidth })

/-- isHyperlinkStart from scan.go. -/
def isHyperlinkStart (l : Scanner) : Bool :=
  let s := l.input.drop l.start
  hyperlinkStart.isPrefixOf s ∨ anonHyperlinkStart.isPrefixOf s

/-- isHyperlinkPrefix from scan.go. -/
def isHyperlinkPrefix (l : Scanner) : Bool × Scanner :=
  let p := peek l
  if p.1 = 10 ∨ p.1 = eof then (false, p.2)
  else (decide (p.2.input.take p.2.pos = hyperlinkStart), p.2)

/-- isHyperlinkName from scan.go. -/
def isHyperlinkName (l : Scanner) : Bool :=
  match l.types1 with
  | Ty.HyperlinkPrefix => !(anonHyperlinkPrefix.isSuffixOf (l.input.take l.pos))
  | Ty.HyperlinkQuote => l.types0 = Ty.HyperlinkPrefix
  | Ty.Space => l.types0 = Ty.HyperlinkName
  | _ => false

/-- isHyperlinkSuffix from scan.go. -/
def isHyperlinkSuffix (l : Scanner) : Bool :=
  match l.types1 with
  | Ty.HyperlinkPrefix | Ty.HyperlinkName => true
  | Ty.HyperlinkQuote => l.types0 = Ty.HyperlinkName
  | _ => false

/-- isUnderscoreSuffix from scan.go. -/
def isUnderscoreSuffix (s : List Nat) : Bool :=
  [95].isSuffixOf s ∧ !([92, 95].isSuffixOf s)

/-- isHyperlinkURI from scan.go. -/
def isHyperlinkURI (l : Scanner) : Bool :=
  let s := trimSuffixNL (l.input.drop l.pos)
  if isUnderscoreSuffix s ∧ !(containsFunc isSpaceRune s) then false
  else
    match l.types0 with
    | Ty.HyperlinkStart | Ty.HyperlinkSuffix | Ty.HyperlinkURI => l.types1 = Ty.Space
    | _ => false

/-- isInlineReferenceText from scan.go. -/
def isInlineReferenceText (l : Scanner) : Bool :=
  match l.types1 with
  | Ty.Space =>
    match l.types0 with
    | Ty.HyperlinkStart | Ty.HyperlinkSuffix | Ty.InlineReferenceText => true
    | _ => false
  | Ty.InlineReferenceOpen => true
  | _ => false

/-- isInlineReferenceClose from scan.go. -/
def isInlineReferenceClose (l : Scanner) : Bool := l.types1 = Ty.InlineReferenceText

/-- isTitle from scan.go: skip past the current line, skip leading
whitespace of the next, and test it as a section adornment; cursor restored
at the end. -/
def isTitle (fuel : Nat) (l : Scanner) : Option (Bool × Scanner) :=
  let pos := l.pos
  let lastWidth := l.lastWidth
  match skipToNL fuel 0 l with
  | none => none
  | some rl =>
    let l := next rl.2
    let l2 :=
      let i := indexFunc notSpace (l.input.drop l.pos)
      if i > 0 then next { l with pos := l.pos + i.toNat } else l
    let ok := isSection l2 l2.lastRune
    some (ok, { l2 with pos := pos, lastWidth := lastWidth })

/-- Roman-numeral letter values (the `nums` map of enum.go; 0 for a missing
key, as for a Go map access). -/
def nums (r : Int) : Int :=
  if r = 73 then 1 else if r = 86 then 5 else if r = 88 then 10
  else if r = 76 then 50 else if r = 67 then 100 else if r = 68 then 500
  else if r = 77 then 1000 else 0

/-- Remainders after consuming between 0 and max copies of the rune c
(the c{0,max} regular-expression piece, all backtracking alternatives). -/
def repChr (c : Int) : Nat → List Int → List (List Int)
  | 0, s => [s]
  | _ + 1, [] => [[]]
  | m + 1, x :: xs => (x :: xs) :: (if x = c then repChr c m xs else [])

/-- Remainders after one rune c. -/
def chrM (c : Int) : List Int → List (List Int)
  | [] => []
  | x :: xs => if x = c then [xs] else []

/-- Sequencing of two remainder-producing matchers. -/
def seqM (f g : List Int → List (List Int)) (s : List Int) : List (List Int) :=
  (f s).flatMap g

/-- Alternation of two remainder-producing matchers. -/
def altM (f g : List Int → List (List Int)) (s : List Int) : List (List Int) :=
  f s ++ g s

/-- The regular-expression group (one·ten | one·five | five? one{0,3}) shared
by the hundreds (CM|CD|D?C{0,3}), tens (XC|XL|L?X{0,3}) and ones
(IX|IV|V?I{0,3}) of numPattern. -/
def romanGroup (one ten five : Int) : List Int → List (List Int) :=
  altM (seqM (chrM one) (chrM ten))
    (altM (seqM (chrM one) (chrM five))
      (seqM (altM (chrM five) (fun s => [s])) (repChr one 3)))

/-- numPattern of enum.go: the anchored regular expression
M{0,4}(CM|CD|D?C{0,3})(XC|XL|L?X{0,3})(IX|IV|V?I{0,3}) over a rune list,
with full backtracking (a match is a chain of remainders ending empty). -/
def numPattern (s : List Int) : Bool :=
  ((((repChr 77 4 s).flatMap (romanGroup 67 77 68)).flatMap
      (romanGroup 88 67 76)).flatMap (romanGroup 73 88 86)).contains []

/-- unicode.ToUpper restricted to ASCII plus U+0131 (dotless i), the only
code points whose uppercase lands in the roman alphabet MDCLXVI; every other
code point maps outside that set both here and in Go, which is all
parseRoman observes. -/
def goToUpper (r : Int) : Int :=
  if 97 ≤ r ∧ r ≤ 122 then r - 32
  else if r = 0x131 then 73
  else r

/-- parseRoman from enum.go: uppercase, validate against numPattern, then
sum the per-letter values of the uppercased string. -/
def parseRoman (s : List Nat) : Int × Bool :=
  let u := (runesOf s).map goToUpper
  if !(numPattern u) then (0, false)
  else (u.foldl (fun sum r => sum + nums r) 0, true)

/-- strconv.Atoi as called from enum.go (errors discarded): the value for an
all-digit slice, saturating at MaxInt64 on overflow, and 0 on any syntax
error. -/
def goAtoi (s : List Nat) : Int :=
  if s ≠ [] ∧ s.all (fun b => 48 ≤ b ∧ b ≤ 57) then
    min (s.foldl (fun a b => a * 10 + ((b : Int) - 48)) 0) (2 ^ 63 - 1)
  else 0

/-- Constant "Ii" (unambiguously roman letters). -/
def roman : List Int := [73, 105]

/-- Constant "VXLCDMvxlcdm" (letters roman only in a roman context). -/
def ambiguousRoman : List Int := [86, 88, 76, 67, 68, 77, 118, 120, 108, 99, 100, 109]

/-- isRoman from enum.go. -/
def isRoman (l : Scanner) (r : Int) : Bool :=
  if roman.contains r then true
  else if ambiguousRoman.contains r then
    l.lastEnum.typ = enumType.upperRoman ∨ l.lastEnum.typ = enumType.lowerRoman
  else false

/-- enumSuffix from enum.go: index of the first '.' or ')' after pos, valid
when the byte after it is missing or whitespace (byte taken as a rune, as
Go's cast does). -/
def enumSuffix (l : Scanner) : Int × Bool :=
  let i := indexAny (l.input.drop l.pos)
  if i < 0 then (i, false)
  else if l.pos + i.toNat + 1 < l.input.length ∧
      !(isSpaceRune ((l.input.getD (l.pos + i.toNat + 1) 0 : Int))) then (i, false)
  else (i, true)

/-- Scanner.enum from enum.go (named enumAt here; Lean cannot reuse the
`enum` structure name for it): interpret the span [pos-1, pos+i) as an
enumerator given the dispatch rune r, with the sequencing check against
lastEnum. -/
def enumAt (l : Scanner) (r : Int) (i : Int) : enum × Bool :=
  let e0 : enum := { typ := enumType.none, val := 0, auto := false }
  if l.lastEnum.auto ∧ r ≠ 35 then (e0, false)
  else
    let span := (l.input.take (l.pos + i.toNat)).drop (l.pos - 1)
    let res : Option enum :=
      if isDigitRune r then
        some { typ := enumType.arabic, val := goAtoi span, auto := false }
      else if isLetterRune r then
        if isRoman l r then
          let p := parseRoman span
          if !p.2 then none
          else
            some { typ := if isLowerRune r then enumType.lowerRoman else enumType.upperRoman,
                   val := p.1, auto := false }
        else if i > 0 then none
        else
          some { typ := if isLowerRune r then enumType.lowerAlpha else enumType.upperAlpha,
                 val := r - 48, auto := false }
      else if r = 35 ∧ i = 0 then
        some { typ := l.lastEnum.typ, val := l.lastEnum.val + 1, auto := true }
      else none
    match res with
    | none => (e0, false)
    | some e =>
      if e.typ = l.lastEnum.typ ∧ e.val - l.lastEnum.val ≠ 1 then (e, false)
      else (e, true)

/-- isEnum from enum.go: speculative parse of the current line's enumerator
(this updates lastEnum before the next-line validation can still fail),
then validation of the next line's potential enumerator; pos and lastWidth
restored on every exit past the first guard, as by the deferred
assignment. -/
def isEnum (fuel : Nat) (l : Scanner) (r : Int) : Option (Bool × Scanner) :=
  if l.types0 = Ty.BlankLine ∧ l.types1 = Ty.Paragraph then some (false, l)
  else
    let pos := l.pos
    let lastWidth := l.lastWidth
    let restore := fun (l : Scanner) => { l with pos := pos, lastWidth := lastWidth }
    let rl := if r = 40 then let l2 := next l; (l2.lastRune, l2) else (r, l)
    let r := rl.1
    let l := rl.2
    let suf := enumSuffix l
    if !suf.2 then some (false, restore l)
    else
      let en := enumAt l r suf.1
      if !en.2 then some (false, restore l)
      else
        let l := { l with lastEnum := en.1 }
        match skipToNL fuel r l with
        | none => none
        | some rl2 =>
          let r := rl2.1
          let l := rl2.2
          if r = eof then some (true, restore l)
          else
            let l := next l
            let rl3 := if l.lastRune = 40 then let l2 := next l; (l2.lastRune, l2)
                       else (l.lastRune, l)
            let r := rl3.1
            let l := rl3.2
            if !(isDigitRune r) ∧ !(isLetterRune r) then some (true, restore l)
            else
              let suf2 := enumSuffix l
              if !suf2.2 then some (false, restore l)
              else some ((enumAt l r suf2.1).2, restore l)

/-- lexAny from scan.go: the dispatcher, with the predicates evaluated in
the source's order and their state effects threaded through. -/
def lexAny (fuel : Nat) (l : Scanner) : Option Scanner :=
  let l := next l
  let r := l.lastRune
  if r = eof then some l
  else if r = 10 then some (lexBlankLine l)
  else if isBlockQuote l then lexSpace fuel l Ty.BlockQuote
  else
    match isAttribution fuel l with
    | none => none
    | some (b, l) =>
      if b then lexAttribution fuel l
      else if isSpaceRune r then lexSpace fuel l Ty.Space
      else
        let bu := isBullet l r
        let l := bu.2
        if bu.1 then some (lexBullet l)
        else if isComment l then some (lexComment l)
        else
          match isTransition fuel l r with
          | none => none
          | some (b, l) =>
            if b then lexTransition fuel l
            else
              match isSectionAdornment fuel l r with
              | none => none
              | some (b, l) =>
                if b then lexSection fuel l
                else if isHyperlinkStart l then some (lexHyperlinkStart l)
                else
                  let hp := isHyperlinkPrefix l
                  let l := hp.2
                  if hp.1 then some (lexHyperlinkPrefix l)
                  else if r = 96 then some (lexQuote l)
                  else if isHyperlinkName l then lexHyperlinkName fuel l
                  else if isHyperlinkSuffix l then some (lexEndOfLine l Ty.HyperlinkSuffix)
                  else if isHyperlinkURI l then lexUntilTerminator fuel l Ty.HyperlinkURI
                  else if isInlineReferenceText l then lexInlineReferenceText fuel l
                  else if isInlineReferenceClose l then some (lexInlineReferenceClose l)
                  else
                    match isTitle fuel l with
                    | none => none
                    | some (b, l) =>
                      if b then lexTitle fuel l
                      else
                        match isEnum fuel l r with
                        | none => none
                        | some (b, l) =>
                          if b then lexEnum fuel l
                          else lexParagraph fuel l

/-- New from scan.go: a fresh scanner over a byte source, positioned at
line 1 (all other fields Go zero values). -/
def New (r : List Nat) : Scanner :=
  { reader := r, done := false, input := [], lastRune := 0, lastWidth := 0,
    line := 1, pos := 0, start := 0,
    token := { typ := Ty.EOF, line := 0, text := [] },
    types0 := Ty.EOF, types1 := Ty.EOF, indent := 0, lastMarkup := Ty.EOF,
    lastEnum := { typ := enumType.none, val := 0, auto := false } }

/-- The assignments at the head of Next: reset lastRune/lastWidth and
preload the EOF token (its line field receives l.pos, as the Go code writes
it). -/
def preload (l : Scanner) : Scanner :=
  { l with lastRune := eof, lastWidth := 0,
           token := { typ := Ty.EOF, line := l.pos, text := ascii "EOF" } }

/-- Next from scan.go: preload, run the state machine to completion, and
return the produced token with the post state.  The fuel bounds the loop
iterations inside one call; `none` means it ran out. -/
def Next (fuel : Nat) (l : Scanner) : Option (Token × Scanner) :=
  (lexAny fuel (preload l)).map fun s => (s.token, s)

/-- Repeated Next calls until an EOF or Error token, collecting every token
returned (the terminal EOF/Error token included), as the package's tests
drive the scanner. -/
def scanTokens : Nat → Nat → Scanner → Option (List Token)
  | 0, _, _ => none
  | n + 1, fuel, l =>
    match Next fuel l with
    | none => none
    | some (t, l2) =>
      if t.typ = Ty.EOF ∨ t.typ = Ty.Error then some [t]
      else (scanTokens n fuel l2).map (t :: ·)

/-- The scanner state after n successful Next calls. -/
def nextN : Nat → Nat → Scanner → Option Scanner
  | 0, _, l => some l
  | n + 1, fuel, l => (Next fuel l).bind fun p => nextN n fuel p.2

/-- The input's bytes with every carriage return removed (loadLine strips
them while buffering). -/
def stripCR (s : List Nat) : List Nat := s.filter (fun b => b ≠ 13)

/-- The bytes the scanner has not consumed yet: the buffered tail after pos
followed by the (CR-stripped) unread source. -/
def streamAt (l : Scanner) : List Nat := l.input.drop l.pos ++ stripCR l.reader

/-- The bytes of the pending (consumed, not yet emitted) item [start, pos). -/
def pending (l : Scanner) : List Nat := (l.input.take l.pos).drop l.start

/-- Structural well-formedness maintained across Next calls: the cursor
stays inside the buffer and a finished source has no unread bytes. -/
def WF (l : Scanner) : Prop :=
  l.start ≤ l.pos ∧ l.pos ≤ l.input.length ∧ (l.done = true → l.reader = [])

/-- The token list reproduces the byte source: each token contributes its
text, optionally followed by the newline its emission absorbed, and the
final token is the EOF sentinel reached with nothing left. -/
def reconstructs : List Token → List Nat → Prop
  | [], _ => False
  | [t], bs => t.typ = Ty.EOF ∧ bs = []
  | t :: ts@(_ :: _), bs =>
    ∃ rest, (bs = t.text ++ rest ∨ bs = t.text ++ 10 :: rest) ∧ reconstructs ts rest

/-- The line that the next loadLine would buffer is empty, or the byte
source is exhausted: what "the following line is empty or end-of-input"
means for a scanner whose buffer ends at the current line. -/
def nextLineEmptyOrEOI (l : Scanner) : Prop :=
  (stripCR l.reader).head? = some 10 ∨ stripCR l.reader = []

/-- Per-letter value of the spec's additive mapping I=1, V=5, X=10, L=50,
C=100, D=500, M=1000 (0 elsewhere), stated independently of the scanner's
`nums` map. -/
def specRomanValue (r : Int) : Int :=
  if r = 73 then 1 else if r = 86 then 5 else if r = 88 then 10
  else if r = 76 then 50 else if r = 67 then 100 else if r = 68 then 500
  else if r = 77 then 1000 else 0

/-- Go's strings.ToUpper at the rune level, applied to a byte list's runes
(parseRoman uppercases before validating). -/
def upperRunesOf (s : List Nat) : List Int := (runesOf s).map goToUpper

/-- A scanner state about to classify the indented line " x stuff": the
previous two tokens were a Paragraph and a BlankLine and the recorded
indent is 3, while the new line is indented by a single space. -/
def c4State : Scanner :=
  { New [] with types0 := Ty.Paragraph, types1 := Ty.BlankLine, indent := 3,
                input := ascii " x stuff" }

/-- A scanner state mid-dispatch on the line "1. a" (the '1' consumed),
with the next line "2x" still unread: the current line parses as the
arabic enumerator 1, but the next line has no enumerator suffix. -/
def c10State : Scanner :=
  { New (ascii "2x\n") with input := ascii "1. a\n", pos := 1, lastRune := 49,
                            lastWidth := 1 }

/-- The hyperlink-target line whose indirect reference text holds an early
underscore. -/
def c2input : List Nat := ascii ".. _t: `a_b cd`_\n"

/-- The scanner state over c2input after seven tokens (HyperlinkStart,
Space, Hyperlink prefix, name and suffix, Space, InlineReferenceOpen): the
cursor sits on the reference text "a_b cd`_". -/
def c2Stuck : Scanner :=
  { reader := [], done := false, input := c2input, lastRune := 96, lastWidth := 1,
    line := 1, pos := 8, start := 8,
    token := { typ := Ty.InlineReferenceOpen, line := 1, text := [96] },
    types0 := Ty.Space, types1 := Ty.InlineReferenceOpen, indent := 0,
    lastMarkup := Ty.HyperlinkStart,
    lastEnum := { typ := enumType.none, val := 0, auto := false } }

/-- c2Stuck as the eighth Next call sees it right after the dispatcher's
first next(): token preloaded with EOF, the rune 'a' consumed. -/
def c2Inner : Scanner :=
  { c2Stuck with lastRune := 97, lastWidth := 1, pos := 9,
                 token := { typ := Ty.EOF, line := 8, text := ascii "EOF" } }

/-- A scanner mid-dispatch on the adornment line "----" (first dash
consumed), with the following blank line still unread in the source. -/
def c5State : Scanner :=
  { New (ascii "\nrest") with input := ascii "----\n", pos := 1, lastRune := 45,
                              lastWidth := 1 }

/-- The scanner state right after the quote error on input "`": buffered
input discarded, cursor zeroed, source exhausted. -/
def c1ErrState : Scanner :=
  { reader := [], done := true, input := [], lastRune := 96, lastWidth := 1,
    line := 1, pos := 0, start := 0,
    token := { typ := Ty.Error, line := 0, text := quoteErrorText },
    types0 := Ty.EOF, types1 := Ty.EOF, indent := 0, lastMarkup := Ty.EOF,
    lastEnum := { typ := enumType.none, val := 0, auto := false } }

/-!
## Theorems

First a lemma layer about the primitives (UTF-8 decoding, line reading, and
which state fields each cursor primitive can touch), then the claim
theorems.
-/

theorem decodeRune_ascii (b : Nat) (rest : List Nat) (h : b < 0x80) :
    decodeRune (b :: rest) = ((b : Int), 1) := by
  simp [decodeRune, h]

set_option maxHeartbeats 3200000 in
/-- A decoded rune below 0x80 can only come from the single byte equal to
it; specialised to the newline rune, the only one the scanner compares
against after decoding. -/
theorem decodeRune_eq_ten :
    ∀ s : List Nat, (decodeRune s).1 = 10 → s.head? = some 10 ∧ (decodeRune s).2 = 1 := by
  intro s h
  match s with
  | [] => simp [decodeRune] at h
  | b0 :: rest =>
    by_cases hb : b0 < 0x80
    · rw [decodeRune_ascii b0 rest hb] at h
      simp only [] at h
      have hb0 : b0 = 10 := by exact_mod_cast h
      subst hb0
      exact ⟨rfl, by rw [decodeRune_ascii]; omega⟩
    · exfalso
      simp only [decodeRune] at h
      rw [if_neg hb] at h
      unfold utf8Accept at h
      split_ifs at h with h1 h2 h3 h4 h5 h6 h7
      all_goals try (simp at h; done)
      all_goals (rcases rest with _ | ⟨b1, rest1⟩ <;> simp only [] at h)
      all_goals try (simp at h; done)
      all_goals (split_ifs at h <;> try (simp at h; done))
      all_goals try (simp only [] at h; omega)
      all_goals (rcases rest1 with _ | ⟨b2, rest2⟩ <;> simp only [] at h)
      all_goals try (simp at h; done)
      all_goals (split_ifs at h <;> try (simp at h; done))
      all_goals try (simp only [] at h; omega)
      all_goals (rcases rest2 with _ | ⟨b3, rest3⟩ <;> simp only [] at h)
      all_goals try (simp at h; done)
      all_goals (split_ifs at h <;> try (simp at h; done))
      all_goals (simp only [] at h; omega)

/-- The decoder consumes at least one byte of a nonempty list. -/
theorem decodeRune_width_pos :
    ∀ (b : Nat) (rest : List Nat), 1 ≤ (decodeRune (b :: rest)).2 := by
  intro b rest
  simp only [decodeRune]
  split_ifs with hb
  · omega
  · rcases h : utf8Accept b with _ | ⟨sz, lo, hi⟩ <;> simp only []
    · omega
    · rcases rest with _ | ⟨b1, rest1⟩ <;> simp only []
      · omega
      · split_ifs <;> try omega
        all_goals rcases rest1 with _ | ⟨b2, rest2⟩ <;> simp only [] <;> try omega
        all_goals split_ifs <;> try omega
        all_goals rcases rest2 with _ | ⟨b3, rest3⟩ <;> simp only [] <;> try omega
        all_goals split_ifs <;> omega

/-- The decoder never claims more bytes than the list holds. -/
theorem decodeRune_width_le : ∀ s : List Nat, (decodeRune s).2 ≤ s.length := by
  intro s
  match s with
  | [] => simp [decodeRune]
  | b0 :: rest =>
    simp only [decodeRune]
    split_ifs with hb
    · simp
    · rcases h : utf8Accept b0 with _ | ⟨sz, lo, hi⟩ <;> simp only []
      · simp
      · rcases rest with _ | ⟨b1, rest1⟩ <;> simp only []
        · simp
        · split_ifs <;> simp_all <;> try omega
          all_goals rcases rest1 with _ | ⟨b2, rest2⟩ <;> simp only [] <;> try simp
          all_goals split_ifs <;> (try simp) <;> try omega
          all_goals rcases rest2 with _ | ⟨b3, rest3⟩ <;> simp only [] <;> try simp
          all_goals split_ifs <;> simp <;> omega

/-- A readLine run that hits the end of the source leaves no reader
behind. -/
theorem readLine_done_nil :
    ∀ r : List Nat, (readLine r).2.2 = true → (readLine r).2.1 = [] := by
  intro r
  induction r with
  | nil => intro; rfl
  | cons c rest ih =>
    intro h
    unfold readLine at h ⊢
    split_ifs at h ⊢ with h10 h13
    · exact ih h
    · exact ih h

/-- readLine takes a CR-stripped prefix off the reader: the stripped reader
splits as the built buffer followed by the stripped remainder. -/
theorem readLine_stripCR :
    ∀ r : List Nat, stripCR r = (readLine r).1 ++ stripCR (readLine r).2.1 := by
  intro r
  induction r with
  | nil => rfl
  | cons c rest ih =>
    by_cases h10 : c = 10
    · subst h10; simp [readLine, stripCR]
    · by_cases h13 : c = 13
      · subst h13; simpa [readLine, stripCR] using ih
      · simp only [readLine, if_neg h10, if_neg h13]
        simpa [stripCR, h13] using ih

/-- An empty readLine buffer means the source ended with nothing left. -/
theorem readLine_buf_nil :
    ∀ r : List Nat, (readLine r).1 = [] → (readLine r).2.1 = [] := by
  intro r
  induction r with
  | nil => intro; rfl
  | cons c rest ih =>
    intro h
    unfold readLine at h ⊢
    split_ifs at h ⊢ with h10 h13
    · exact ih h

/-- The head of the next buffered line is the head of the CR-stripped
reader. -/
theorem readLine_head (r : List Nat) : (readLine r).1.head? = (stripCR r).head? := by
  rcases hb : (readLine r).1 with _ | ⟨b, bs⟩
  · rw [readLine_stripCR r, hb, readLine_buf_nil r hb]
    rfl
  · rw [readLine_stripCR r, hb]
    rfl

@[simp] theorem loadLine_token (l : Scanner) : (loadLine l).token = l.token := by
  unfold loadLine; dsimp only; split <;> rfl

@[simp] theorem loadLine_line (l : Scanner) : (loadLine l).line = l.line := by
  unfold loadLine; dsimp only; split <;> rfl

@[simp] theorem loadLine_types0 (l : Scanner) : (loadLine l).types0 = l.types0 := by
  unfold loadLine; dsimp only; split <;> rfl

@[simp] theorem loadLine_types1 (l : Scanner) : (loadLine l).types1 = l.types1 := by
  unfold loadLine; dsimp only; split <;> rfl

@[simp] theorem loadLine_indent (l : Scanner) : (loadLine l).indent = l.indent := by
  unfold loadLine; dsimp only; split <;> rfl

@[simp] theorem loadLine_lastMarkup (l : Scanner) : (loadLine l).lastMarkup = l.lastMarkup := by
  unfold loadLine; dsimp only; split <;> rfl

@[simp] theorem loadLine_lastEnum (l : Scanner) : (loadLine l).lastEnum = l.lastEnum := by
  unfold loadLine; dsimp only; split <;> rfl

@[simp] theorem loadLine_lastRune (l : Scanner) : (loadLine l).lastRune = l.lastRune := by
  unfold loadLine; dsimp only; split <;> rfl

@[simp] theorem loadLine_lastWidth (l : Scanner) : (loadLine l).lastWidth = l.lastWidth := by
  unfold loadLine; dsimp only; split <;> rfl

@[simp] theorem refill_token (l : Scanner) : (refill l).token = l.token := by
  unfold refill; split <;> simp

@[simp] theorem refill_line (l : Scanner) : (refill l).line = l.line := by
  unfold refill; split <;> simp

@[simp] theorem refill_types0 (l : Scanner) : (refill l).types0 = l.types0 := by
  unfold refill; split <;> simp

@[simp] theorem refill_types1 (l : Scanner) : (refill l).types1 = l.types1 := by
  unfold refill; split <;> simp

@[simp] theorem refill_indent (l : Scanner) : (refill l).indent = l.indent := by
  unfold refill; split <;> simp

@[simp] theorem refill_lastMarkup (l : Scanner) : (refill l).lastMarkup = l.lastMarkup := by
  unfold refill; split <;> simp

@[simp] theorem refill_lastEnum (l : Scanner) : (refill l).lastEnum = l.lastEnum := by
  unfold refill; split <;> simp

@[simp] theorem refill_lastRune (l : Scanner) : (refill l).lastRune = l.lastRune := by
  unfold refill; split <;> simp

@[simp] theorem refill_lastWidth (l : Scanner) : (refill l).lastWidth = l.lastWidth := by
  unfold refill; split <;> simp

theorem readRune_snd (l : Scanner) : (readRune l).2 = refill l := by
  unfold readRune; dsimp only; split <;> rfl

theorem peek_snd (l : Scanner) : (peek l).2 = refill l := by
  unfold peek; rw [readRune_snd]

theorem next_eq (l : Scanner) :
    next l = { refill l with lastRune := (readRune l).1.1, lastWidth := (readRune l).1.2,
                             pos := (refill l).pos + (readRune l).1.2 } := by
  unfold next; dsimp only; rw [readRune_snd]

@[simp] theorem next_token (l : Scanner) : (next l).token = l.token := by
  rw [next_eq]; simp

@[simp] theorem next_line (l : Scanner) : (next l).line = l.line := by
  rw [next_eq]; simp

@[simp] theorem next_types0 (l : Scanner) : (next l).types0 = l.types0 := by
  rw [next_eq]; simp

@[simp] theorem next_types1 (l : Scanner) : (next l).types1 = l.types1 := by
  rw [next_eq]; simp

@[simp] theorem next_indent (l : Scanner) : (next l).indent = l.indent := by
  rw [next_eq]; simp

@[simp] theorem next_lastMarkup (l : Scanner) : (next l).lastMarkup = l.lastMarkup := by
  rw [next_eq]; simp

@[simp] theorem next_lastEnum (l : Scanner) : (next l).lastEnum = l.lastEnum := by
  rw [next_eq]; simp

/-- C6: parseRoman succeeds exactly when the uppercased input matches the
validation pattern M{0,4}(CM|CD|D?C{0,3})(XC|XL|L?X{0,3})(IX|IV|V?I{0,3}),
and then returns the additive sum of per-letter values I=1, V=5, X=10,
L=50, C=100, D=500, M=1000 over the (uppercased) letters. -/
theorem parseRoman_spec (s : List Nat) :
    ((parseRoman s).2 = numPattern (upperRunesOf s)) ∧
    ((parseRoman s).2 = true →
      (parseRoman s).1 = ((upperRunesOf s).map specRomanValue).sum) := by
  have hnum : ∀ u : List Int,
      u.foldl (fun sum r => sum + nums r) 0 = (u.map specRomanValue).sum := by
    intro u
    have hgen : ∀ a : Int, u.foldl (fun sum r => sum + nums r) a = a + (u.map specRomanValue).sum := by
      induction u with
      | nil => intro a; simp
      | cons x xs ih =>
        intro a
        simp only [List.foldl_cons, List.map_cons, List.sum_cons, ih]
        have hx : nums x = specRomanValue x := by unfold nums specRomanValue; rfl
        rw [hx]; ring
    simpa using hgen 0
  unfold parseRoman upperRunesOf
  rcases h : numPattern ((runesOf s).map goToUpper) <;> simp [h, hnum]

/-- Witness for C6 at the concrete numeral "xiv" (uppercased "XIV",
additive value 16). -/
theorem parseRoman_spec_witness :
    (parseRoman (ascii "xiv")).2 = true ∧
    (parseRoman (ascii "xiv")).1 = ((upperRunesOf (ascii "xiv")).map specRomanValue).sum ∧
    (parseRoman (ascii "xiv")).1 = 16 :=
  ⟨by decide, (parseRoman_spec (ascii "xiv")).2 (by decide), by decide⟩

/-- C10: on the line "1. a" followed by "2x", isEnum stores the parsed
arabic enumerator 1 into lastEnum and still answers false, because the next
line has no enumerator suffix. -/
theorem isEnum_overwrites_lastEnum :
    (isEnum 100 c10State 49).map (fun p => (p.1, p.2.lastEnum)) =
      some (false, { typ := enumType.arabic, val := 1, auto := false }) ∧
    c10State.lastEnum = { typ := enumType.none, val := 0, auto := false } := by
  constructor
  · decide
  · decide

/-- C4 counterexample: a state with recorded indent 3 whose current line is
indented by one space: isBlockQuote answers true although the
leading-whitespace run (1) is not greater than the indent (3). -/
theorem isBlockQuote_not_greater :
    isBlockQuote c4State = true ∧ c4State.indent = 3 ∧
    indexFunc notSpace (c4State.input.drop c4State.start) = 1 ∧
    ¬(c4State.indent < indexFunc notSpace (c4State.input.drop c4State.start)) := by
  decide

/-- C4 amended: isBlockQuote returns true only when lastMarkup is EOF, and
either types0 is a Paragraph, Attribution or Comment, or types1 is a
Paragraph with the line indented, and the leading-whitespace run (the byte
offset of the first non-space rune) is positive and different from (not
necessarily greater than) the current indent. -/
theorem isBlockQuote_only_if (l : Scanner) (h : isBlockQuote l = true) :
    l.lastMarkup = Ty.EOF ∧
    (l.types0 = Ty.Paragraph ∨ l.types0 = Ty.Attribution ∨ l.types0 = Ty.Comment ∨
      (l.types1 = Ty.Paragraph ∧ 0 < indexFunc notSpace (l.input.drop l.start))) ∧
    0 < indexFunc notSpace (l.input.drop l.start) ∧
    indexFunc notSpace (l.input.drop l.start) ≠ l.indent := by
  unfold isBlockQuote at h
  by_cases hm : l.lastMarkup = Ty.EOF
  · rw [if_neg (not_not_intro hm)] at h
    refine ⟨hm, ?_⟩
    cases h0 : l.types0 <;> simp only [h0] at h <;> simp at h <;>
      first
        | exact ⟨by simp, h.1, h.2⟩
        | exact ⟨Or.inr (Or.inr (Or.inr ⟨h.1.1, h.2.1⟩)), h.2.1, h.2.2⟩
  · rw [if_pos hm] at h; exact absurd h (by simp)

/-- Witness for the amended C4 at c4State. -/
theorem isBlockQuote_only_if_witness :
    c4State.lastMarkup = Ty.EOF ∧
    (c4State.types0 = Ty.Paragraph ∨ c4State.types0 = Ty.Attribution ∨
      c4State.types0 = Ty.Comment ∨
      (c4State.types1 = Ty.Paragraph ∧
        0 < indexFunc notSpace (c4State.input.drop c4State.start))) ∧
    0 < indexFunc notSpace (c4State.input.drop c4State.start) ∧
    indexFunc notSpace (c4State.input.drop c4State.start) ≠ c4State.indent :=
  isBlockQuote_only_if c4State (by decide)

/-- C8: the Line fields of the EOF and Error tokens hold byte offsets, not
line numbers: on empty input the EOF token carries 0 although the scanner
is at line 1, and on "`x" the Error token carries l.start = 0. -/
theorem token_line_field_bug :
    (Next 10 (New [])).map (fun p => (p.1.typ, p.1.line)) = some (Ty.EOF, 0) ∧
    (New []).line = 1 ∧
    (Next 10 (New (ascii "`x"))).map (fun p => (p.1.typ, p.1.line)) = some (Ty.Error, 0) ∧
    (New (ascii "`x")).line = 1 := by
  refine ⟨by decide, by decide, by decide, by decide⟩



theorem isTitle_restore (fuel : Nat) (l : Scanner) (b : Bool) (l2 : Scanner)
    (h : isTitle fuel l = some (b, l2)) : l2.pos = l.pos ∧ l2.lastWidth = l.lastWidth := by
  unfold isTitle at h
  repeat
    any_goals
      first
      | (simp only [Option.some.injEq, Prod.mk.injEq] at h; rw [← h.2]; exact ⟨rfl, rfl⟩)
      | (simp at h; done)
      | (split_ifs at h)
      | (split at h)
      | (dsimp only at h)

theorem isTransition_restore (fuel : Nat) (l : Scanner) (r : Int) (b : Bool) (l2 : Scanner)
    (h : isTransition fuel l r = some (b, l2)) :
    l2.pos = l.pos ∧ l2.lastWidth = l.lastWidth := by
  unfold isTransition at h
  repeat
    any_goals
      first
      | (simp only [Option.some.injEq, Prod.mk.injEq] at h; rw [← h.2]; exact ⟨rfl, rfl⟩)
      | (simp at h; done)
      | (split_ifs at h)
      | (split at h)
      | (dsimp only at h)

theorem isSectionAdornment_restore (fuel : Nat) (l : Scanner) (r : Int) (b : Bool) (l2 : Scanner)
    (h : isSectionAdornment fuel l r = some (b, l2)) :
    l2.pos = l.pos ∧ l2.lastWidth = l.lastWidth := by
  unfold isSectionAdornment at h
  repeat
    any_goals
      first
      | (simp only [Option.some.injEq, Prod.mk.injEq] at h; rw [← h.2]; exact ⟨rfl, rfl⟩)
      | (simp at h; done)
      | (split_ifs at h)
      | (split at h)
      | (dsimp only at h)

theorem isAttribution_restore (fuel : Nat) (l : Scanner) (b : Bool) (l2 : Scanner)
    (h : isAttribution fuel l = some (b, l2)) :
    l2.pos = l.pos ∧ l2.lastWidth = l.lastWidth := by
  unfold isAttribution at h
  repeat
    any_goals
      first
      | (simp only [Option.some.injEq, Prod.mk.injEq] at h; rw [← h.2]; exact ⟨rfl, rfl⟩)
      | (simp at h; done)
      | (split_ifs at h)
      | (split at h)
      | (dsimp only at h)

theorem isEnum_restore (fuel : Nat) (l : Scanner) (r : Int) (b : Bool) (l2 : Scanner)
    (h : isEnum fuel l r = some (b, l2)) :
    l2.pos = l.pos ∧ l2.lastWidth = l.lastWidth := by
  unfold isEnum at h
  repeat
    any_goals
      first
      | (simp only [Option.some.injEq, Prod.mk.injEq] at h; rw [← h.2]; exact ⟨rfl, rfl⟩)
      | (simp at h; done)
      | (split_ifs at h)
      | (split at h)
      | (dsimp only at h)

/-- C9: each lookahead classifier (isTitle, isTransition,
isSectionAdornment, isAttribution, isEnum) returns with pos and lastWidth
equal to their values on entry, so classification never permanently
consumes input. -/
theorem classifiers_restore_cursor :
    (∀ fuel l b l2, isTitle fuel l = some (b, l2) →
       l2.pos = l.pos ∧ l2.lastWidth = l.lastWidth) ∧
    (∀ fuel l r b l2, isTransition fuel l r = some (b, l2) →
       l2.pos = l.pos ∧ l2.lastWidth = l.lastWidth) ∧
    (∀ fuel l r b l2, isSectionAdornment fuel l r = some (b, l2) →
       l2.pos = l.pos ∧ l2.lastWidth = l.lastWidth) ∧
    (∀ fuel l b l2, isAttribution fuel l = some (b, l2) →
       l2.pos = l.pos ∧ l2.lastWidth = l.lastWidth) ∧
    (∀ fuel l r b l2, isEnum fuel l r = some (b, l2) →
       l2.pos = l.pos ∧ l2.lastWidth = l.lastWidth) :=
  ⟨isTitle_restore, isTransition_restore, isSectionAdornment_restore,
   isAttribution_restore, isEnum_restore⟩

/-- Witness for C9: the five classifiers, run on the concrete state
c2Stuck, all hand the cursor back where it was. -/
theorem classifiers_restore_cursor_witness :
    (isTitle 100 c2Stuck).map (fun p => (p.2.pos, p.2.lastWidth)) =
      some (c2Stuck.pos, c2Stuck.lastWidth) ∧
    (isTransition 100 c2Stuck 46).map (fun p => (p.2.pos, p.2.lastWidth)) =
      some (c2Stuck.pos, c2Stuck.lastWidth) ∧
    (isSectionAdornment 100 c2Stuck 46).map (fun p => (p.2.pos, p.2.lastWidth)) =
      some (c2Stuck.pos, c2Stuck.lastWidth) ∧
    (isAttribution 100 c2Stuck).map (fun p => (p.2.pos, p.2.lastWidth)) =
      some (c2Stuck.pos, c2Stuck.lastWidth) ∧
    (isEnum 100 c2Stuck 49).map (fun p => (p.2.pos, p.2.lastWidth)) =
      some (c2Stuck.pos, c2Stuck.lastWidth) := by
  refine ⟨?_, ?_, ?_, ?_, ?_⟩
  · rcases hev : isTitle 100 c2Stuck with _ | ⟨b, l2⟩
    · exact absurd hev (by decide)
    · have hr := classifiers_restore_cursor.1 100 c2Stuck b l2 hev
      simp [hr.1, hr.2]
  · rcases hev : isTransition 100 c2Stuck 46 with _ | ⟨b, l2⟩
    · exact absurd hev (by decide)
    · have hr := classifiers_restore_cursor.2.1 100 c2Stuck 46 b l2 hev
      simp [hr.1, hr.2]
  · rcases hev : isSectionAdornment 100 c2Stuck 46 with _ | ⟨b, l2⟩
    · exact absurd hev (by decide)
    · have hr := classifiers_restore_cursor.2.2.1 100 c2Stuck 46 b l2 hev
      simp [hr.1, hr.2]
  · rcases hev : isAttribution 100 c2Stuck with _ | ⟨b, l2⟩
    · exact absurd hev (by decide)
    · have hr := classifiers_restore_cursor.2.2.2.1 100 c2Stuck b l2 hev
      simp [hr.1, hr.2]
  · rcases hev : isEnum 100 c2Stuck 49 with _ | ⟨b, l2⟩
    · exact absurd hev (by decide)
    · have hr := classifiers_restore_cursor.2.2.2.2 100 c2Stuck 49 b l2 hev
      simp [hr.1, hr.2]

/-- At c2Inner the inline-reference-text loop makes no progress: the peeked
rune is the underscore at offset 9 of a 17-byte buffer, so the emit guard
pos > len-3 fails and the loop re-peeks the same position; no fuel
suffices. -/
theorem lexIRT_stuck : ∀ fuel, lexInlineReferenceText fuel c2Inner = none := by
  intro fuel
  induction fuel with
  | zero => rfl
  | succ f ih =>
    calc lexInlineReferenceText (f + 1) c2Inner
        = lexInlineReferenceText f c2Inner := rfl
      _ = none := ih

/-- C2: on the input ".. _t: `a_b cd`_\n" the scanner reaches, after seven
tokens, the state c2Stuck, from which the eighth Next call never returns a
token however much fuel it is given: the inline-reference-text loop spins
on the underscore inside the reference text.  This refutes the claim's
termination statement at a concrete input. -/
theorem next_diverges_on_inline_underscore :
    nextN 7 300 (New c2input) = some c2Stuck ∧ (∀ fuel, Next fuel c2Stuck = none) := by
  constructor
  · decide
  · intro fuel
    have hstep : Next fuel c2Stuck =
        (lexInlineReferenceText fuel c2Inner).map (fun s => (s.token, s)) := rfl
    rw [hstep, lexIRT_stuck fuel]
    rfl


theorem emit_typ (l : Scanner) (t : Ty) : (emit l t).token.typ = t := rfl

theorem lexEndOfLine_token (l : Scanner) (ty : Ty) :
    (lexEndOfLine l ty).token = (emit l ty).token := by
  unfold lexEndOfLine ignore
  dsimp only
  split_ifs <;> simp [peek_snd]

theorem lexEndOfLine_typ (l : Scanner) (ty : Ty) :
    (lexEndOfLine l ty).token.typ = ty := by
  rw [lexEndOfLine_token]; exact emit_typ _ _

theorem lexUntilTerminator_typ :
    ∀ fuel l ty l2, lexUntilTerminator fuel l ty = some l2 → l2.token.typ = ty := by
  intro fuel
  induction fuel with
  | zero => intro l ty l2 h; simp [lexUntilTerminator] at h
  | succ f ih =>
    intro l ty l2 h
    unfold lexUntilTerminator at h
    dsimp only at h
    split_ifs at h with h1 h2
    · rw [← Option.some.inj h]; exact emit_typ _ _
    · rw [← Option.some.inj h]; exact lexEndOfLine_typ _ _
    · exact ih _ _ _ h

theorem lexSpace_typ (fuel : Nat) (l : Scanner) (ty : Ty) (l2 : Scanner)
    (h : lexSpace fuel l ty = some l2) : l2.token.typ = ty := by
  unfold lexSpace at h
  rcases hl : lexSpaceLoop fuel l 1 with _ | r <;> rw [hl] at h <;> simp only [Option.map] at h
  · simp at h
  · rw [← Option.some.inj h]
    exact emit_typ _ _

theorem lexHyperlinkName_typ :
    ∀ fuel l l2, lexHyperlinkName fuel l = some l2 → l2.token.typ = Ty.HyperlinkName := by
  intro fuel
  induction fuel with
  | zero => intro l l2 h; simp [lexHyperlinkName] at h
  | succ f ih =>
    intro l l2 h
    unfold lexHyperlinkName at h
    dsimp only at h
    split_ifs at h with h1 h2 h3 h4
    · rw [← Option.some.inj h]; exact emit_typ _ _
    · exact ih _ _ h
    · rw [← Option.some.inj h]; exact emit_typ _ _
    · rw [← Option.some.inj h]; exact lexEndOfLine_typ _ _
    · exact ih _ _ h

theorem lexInlineReferenceText_typ :
    ∀ fuel l l2, lexInlineReferenceText fuel l = some l2 →
      l2.token.typ = Ty.InlineReferenceText := by
  intro fuel
  induction fuel with
  | zero => intro l l2 h; simp [lexInlineReferenceText] at h
  | succ f ih =>
    intro l l2 h
    unfold lexInlineReferenceText at h
    dsimp only at h
    split_ifs at h with h1 h2 h3 h4
    · rw [← Option.some.inj h]; exact emit_typ _ _
    · exact ih _ _ h
    · rw [← Option.some.inj h]; exact emit_typ _ _
    · rw [← Option.some.inj h]; exact lexEndOfLine_typ _ _
    · exact ih _ _ h

theorem lexEnum_typ :
    ∀ fuel l l2, lexEnum fuel l = some l2 → l2.token.typ = Ty.Enum := by
  intro fuel
  induction fuel with
  | zero => intro l l2 h; simp [lexEnum] at h
  | succ f ih =>
    intro l l2 h
    unfold lexEnum at h
    dsimp only at h
    split_ifs at h with h1 h2
    · rw [← Option.some.inj h]; exact lexEndOfLine_typ _ _
    · rw [← Option.some.inj h]; exact emit_typ _ _
    · exact ih _ _ h

theorem lexBlankLine_typ (l : Scanner) : (lexBlankLine l).token.typ = Ty.BlankLine := by
  unfold lexBlankLine; dsimp only; split_ifs <;> exact emit_typ _ _


theorem lexBullet_typ (l : Scanner) : (lexBullet l).token.typ = Ty.Bullet :=
  lexEndOfLine_typ _ _

theorem lexComment_typ (l : Scanner) : (lexComment l).token.typ = Ty.Comment :=
  lexEndOfLine_typ _ _

theorem lexHyperlinkStart_typ (l : Scanner) :
    (lexHyperlinkStart l).token.typ = Ty.HyperlinkStart := emit_typ _ _

theorem lexHyperlinkPrefix_typ (l : Scanner) :
    (lexHyperlinkPrefix l).token.typ = Ty.HyperlinkPrefix := by
  unfold lexHyperlinkPrefix; dsimp only; split_ifs <;> exact emit_typ _ _

theorem lexInlineReferenceClose_typ (l : Scanner) :
    (lexInlineReferenceClose l).token.typ = Ty.InlineReferenceClose := by
  unfold lexInlineReferenceClose; dsimp only; split_ifs <;> exact lexEndOfLine_typ _ _

theorem lexQuote_shape (l : Scanner) :
    (lexQuote l).token.typ = Ty.HyperlinkQuote ∨
    (lexQuote l).token.typ = Ty.InlineReferenceOpen ∨
    (lexQuote l).token.typ = Ty.InlineReferenceClose ∨
    lexQuote l = errorf l quoteErrorText := by
  unfold lexQuote
  split_ifs with h1 h2 h3
  · exact Or.inl (emit_typ _ _)
  · exact Or.inr (Or.inl (emit_typ _ _))
  · exact Or.inr (Or.inr (Or.inl (lexInlineReferenceClose_typ _)))
  · exact Or.inr (Or.inr (Or.inr rfl))

theorem errorf_fields (l : Scanner) (m : List Nat) :
    (errorf l m).token.typ = Ty.Error ∧ (errorf l m).input = [] ∧
    (errorf l m).start = 0 ∧ (errorf l m).pos = 0 :=
  ⟨rfl, rfl, rfl, rfl⟩

theorem right_shape {l s : Scanner} {ty : Ty} (h : s.token.typ = ty)
    (hE : ty ≠ Ty.EOF) (hErr : ty ≠ Ty.Error) (hB : ty ≠ Ty.BlankLine) :
    s.token.typ ≠ Ty.EOF ∧
    (s.token.typ = Ty.Error → s.input = [] ∧ s.start = 0 ∧ s.pos = 0) ∧
    (s.token.typ = Ty.BlankLine → s = lexBlankLine (next l) ∧ (next l).lastRune = 10) := by
  refine ⟨by rw [h]; exact hE, ?_, ?_⟩
  · intro he; exact absurd (h.symm.trans he) hErr
  · intro he; exact absurd (h.symm.trans he) hB

theorem lexAny_shape (fuel : Nat) (l : Scanner) (s : Scanner) (h : lexAny fuel l = some s) :
    (s = next l ∧ (next l).lastRune = eof) ∨
    (s.token.typ ≠ Ty.EOF ∧
     (s.token.typ = Ty.Error → s.input = [] ∧ s.start = 0 ∧ s.pos = 0) ∧
     (s.token.typ = Ty.BlankLine → s = lexBlankLine (next l) ∧ (next l).lastRune = 10)) := by
  unfold lexAny at h
  dsimp only at h
  by_cases he : (next l).lastRune = eof
  · rw [if_pos he] at h
    exact Or.inl ⟨(Option.some.inj h).symm, he⟩
  rw [if_neg he] at h
  by_cases h10 : (next l).lastRune = 10
  · rw [if_pos h10] at h
    have hs := (Option.some.inj h).symm
    subst hs
    refine Or.inr ⟨?_, ?_, fun _ => ⟨rfl, h10⟩⟩
    · rw [lexBlankLine_typ]; decide
    · intro he2; rw [lexBlankLine_typ] at he2; exact absurd he2 (by decide)
  rw [if_neg h10] at h
  by_cases hbq : isBlockQuote (next l) = true
  · rw [if_pos hbq] at h
    exact Or.inr (right_shape (lexSpace_typ _ _ _ _ h) (by decide) (by decide) (by decide))
  rw [if_neg hbq] at h
  rcases hA : isAttribution fuel (next l) with _ | ⟨bA, lA⟩ <;> rw [hA] at h
  · exact absurd h (by simp)
  dsimp only at h
  by_cases hbA : bA = true
  · rw [if_pos hbA] at h
    exact Or.inr (right_shape (lexUntilTerminator_typ _ _ _ _ h) (by decide) (by decide) (by decide))
  rw [if_neg hbA] at h
  by_cases hsp : isSpaceRune (next l).lastRune = true
  · rw [if_pos hsp] at h
    exact Or.inr (right_shape (lexSpace_typ _ _ _ _ h) (by decide) (by decide) (by decide))
  rw [if_neg hsp] at h
  by_cases hbu : (isBullet lA (next l).lastRune).1 = true
  · rw [if_pos hbu] at h
    have hs := (Option.some.inj h).symm
    subst hs
    exact Or.inr (right_shape (lexBullet_typ _) (by decide) (by decide) (by decide))
  rw [if_neg hbu] at h
  by_cases hco : isComment (isBullet lA (next l).lastRune).2 = true
  · rw [if_pos hco] at h
    have hs := (Option.some.inj h).symm
    subst hs
    exact Or.inr (right_shape (lexComment_typ _) (by decide) (by decide) (by decide))
  rw [if_neg hco] at h
  rcases hT : isTransition fuel (isBullet lA (next l).lastRune).2 (next l).lastRune
    with _ | ⟨bT, lT⟩ <;> rw [hT] at h
  · exact absurd h (by simp)
  dsimp only at h
  by_cases hbT : bT = true
  · rw [if_pos hbT] at h
    exact Or.inr (right_shape (lexUntilTerminator_typ _ _ _ _ h) (by decide) (by decide) (by decide))
  rw [if_neg hbT] at h
  rcases hS : isSectionAdornment fuel lT (next l).lastRune with _ | ⟨bS, lS⟩ <;> rw [hS] at h
  · exact absurd h (by simp)
  dsimp only at h
  by_cases hbS : bS = true
  · rw [if_pos hbS] at h
    exact Or.inr (right_shape (lexUntilTerminator_typ _ _ _ _ h) (by decide) (by decide) (by decide))
  rw [if_neg hbS] at h
  by_cases hhs : isHyperlinkStart lS = true
  · rw [if_pos hhs] at h
    have hs := (Option.some.inj h).symm
    subst hs
    exact Or.inr (right_shape (lexHyperlinkStart_typ _) (by decide) (by decide) (by decide))
  rw [if_neg hhs] at h
  by_cases hhp : (isHyperlinkPrefix lS).1 = true
  · rw [if_pos hhp] at h
    have hs := (Option.some.inj h).symm
    subst hs
    exact Or.inr (right_shape (lexHyperlinkPrefix_typ _) (by decide) (by decide) (by decide))
  rw [if_neg hhp] at h
  by_cases hq : (next l).lastRune = 96
  · rw [if_pos hq] at h
    have hs := (Option.some.inj h).symm
    subst hs
    rcases lexQuote_shape (isHyperlinkPrefix lS).2 with hty | hty | hty | heq
    · exact Or.inr (right_shape hty (by decide) (by decide) (by decide))
    · exact Or.inr (right_shape hty (by decide) (by decide) (by decide))
    · exact Or.inr (right_shape hty (by decide) (by decide) (by decide))
    · rw [heq]
      refine Or.inr ⟨by rw [(errorf_fields _ _).1]; decide, ?_, ?_⟩
      · intro _
        exact ⟨(errorf_fields _ _).2.1, (errorf_fields _ _).2.2.1, (errorf_fields _ _).2.2.2⟩
      · intro he2; rw [(errorf_fields _ _).1] at he2; exact absurd he2 (by decide)
  rw [if_neg hq] at h
  by_cases hhn : isHyperlinkName (isHyperlinkPrefix lS).2 = true
  · rw [if_pos hhn] at h
    exact Or.inr (right_shape (lexHyperlinkName_typ _ _ _ h) (by decide) (by decide) (by decide))
  rw [if_neg hhn] at h
  by_cases hhsx : isHyperlinkSuffix (isHyperlinkPrefix lS).2 = true
  · rw [if_pos hhsx] at h
    have hs := (Option.some.inj h).symm
    subst hs
    exact Or.inr (right_shape (lexEndOfLine_typ _ _) (by decide) (by decide) (by decide))
  rw [if_neg hhsx] at h
  by_cases hhu : isHyperlinkURI (isHyperlinkPrefix lS).2 = true
  · rw [if_pos hhu] at h
    exact Or.inr (right_shape (lexUntilTerminator_typ _ _ _ _ h) (by decide) (by decide) (by decide))
  rw [if_neg hhu] at h
  by_cases hit : isInlineReferenceText (isHyperlinkPrefix lS).2 = true
  · rw [if_pos hit] at h
    exact Or.inr (right_shape (lexInlineReferenceText_typ _ _ _ h) (by decide) (by decide) (by decide))
  rw [if_neg hit] at h
  by_cases hic : isInlineReferenceClose (isHyperlinkPrefix lS).2 = true
  · rw [if_pos hic] at h
    have hs := (Option.some.inj h).symm
    subst hs
    exact Or.inr (right_shape (lexInlineReferenceClose_typ _) (by decide) (by decide) (by decide))
  rw [if_neg hic] at h
  rcases hTi : isTitle fuel (isHyperlinkPrefix lS).2 with _ | ⟨bTi, lTi⟩ <;> rw [hTi] at h
  · exact absurd h (by simp)
  dsimp only at h
  by_cases hbTi : bTi = true
  · rw [if_pos hbTi] at h
    exact Or.inr (right_shape (lexUntilTerminator_typ _ _ _ _ h) (by decide) (by decide) (by decide))
  rw [if_neg hbTi] at h
  rcases hE2 : isEnum fuel lTi (next l).lastRune with _ | ⟨bE, lE⟩ <;> rw [hE2] at h
  · exact absurd h (by simp)
  dsimp only at h
  by_cases hbE : bE = true
  · rw [if_pos hbE] at h
    exact Or.inr (right_shape (lexEnum_typ _ _ _ h) (by decide) (by decide) (by decide))
  rw [if_neg hbE] at h
  exact Or.inr (right_shape (lexUntilTerminator_typ _ _ _ _ h) (by decide) (by decide) (by decide))

theorem readRune_fst (l : Scanner) :
    (readRune l).1 = if (refill l).input.length = (refill l).pos then (eof, 0)
                     else decodeRune ((refill l).input.drop (refill l).pos) := by
  unfold readRune; dsimp only; split_ifs <;> rfl

theorem loadLine_start_pos (l : Scanner) (hsp : l.start = l.pos) :
    (loadLine l).start = (loadLine l).pos := by
  unfold loadLine
  dsimp only
  split_ifs with h
  rfl

theorem refill_start_pos (l : Scanner) (hsp : l.start = l.pos) :
    (refill l).start = (refill l).pos := by
  unfold refill
  split_ifs with h
  · exact loadLine_start_pos _ hsp
  · exact hsp

theorem next_blank (l : Scanner) (hsp : l.start = l.pos) (h10 : (next l).lastRune = 10) :
    ((next l).input.take (next l).pos).drop (next l).start = [10] := by
  have hlr : (next l).lastRune = (readRune l).1.1 := by rw [next_eq]
  have hin : (next l).input = (refill l).input := by rw [next_eq]
  have hpos : (next l).pos = (refill l).pos + (readRune l).1.2 := by rw [next_eq]
  have hst : (next l).start = (refill l).start := by rw [next_eq]
  rw [hlr, readRune_fst] at h10
  rw [hin, hpos, hst, refill_start_pos l hsp, readRune_fst]
  by_cases hc : (refill l).input.length = (refill l).pos
  · rw [if_pos hc] at h10
    exact absurd h10 (by decide)
  · rw [if_neg hc] at h10 ⊢
    obtain ⟨hhead, hw⟩ := decodeRune_eq_ten _ h10
    rw [hw, List.drop_take, Nat.add_sub_cancel_left, List.take_one, hhead]
    rfl

theorem emit_line (l : Scanner) (t : Ty) :
    (emit l t).line = if t = Ty.BlankLine then l.line + 1 else l.line := by
  unfold emit; dsimp only; split_ifs <;> rfl

theorem emit_lastMarkup (l : Scanner) (t : Ty) : (emit l t).lastMarkup = l.lastMarkup := by
  unfold emit; dsimp only; split_ifs <;> rfl

theorem emit_lastEnum_blank (l : Scanner) :
    (emit l Ty.BlankLine).lastEnum = { typ := enumType.none, val := 0, auto := false } := by
  unfold emit
  rw [if_pos rfl]
  dsimp only
  split_ifs <;> rfl

theorem emit_text (l : Scanner) (t : Ty) :
    (emit l t).token.text = (l.input.take l.pos).drop l.start := by
  unfold emit; dsimp only; split_ifs <;> rfl

theorem lexBlankLine_fields (x : Scanner) (hsp : x.start = x.pos)
    (h10 : (next x).lastRune = 10) :
    (lexBlankLine (next x)).token.text = [10] ∧
    (lexBlankLine (next x)).line = x.line + 1 ∧
    (lexBlankLine (next x)).lastEnum = { typ := enumType.none, val := 0, auto := false } ∧
    (lexBlankLine (next x)).lastMarkup =
      (if x.types1 = Ty.Comment then Ty.EOF else x.lastMarkup) := by
  unfold lexBlankLine
  dsimp only
  refine ⟨?_, ?_, ?_, ?_⟩
  · split_ifs <;> (rw [emit_text]; exact next_blank x hsp h10)
  · split_ifs <;> (rw [emit_line]; simp)
  · split_ifs <;> exact emit_lastEnum_blank _
  · rw [next_types1]
    split_ifs with hcm
    · rw [emit_lastMarkup]
    · rw [emit_lastMarkup, next_lastMarkup]

/-- C7: whenever Next returns a BlankLine token (from a state with no
pending bytes, as at every real call), its text is "\n", the line counter
is incremented, lastEnum is reset to {none, 0, false}, and lastMarkup is
cleared to EOF exactly when the previously emitted kind was Comment (else
kept). -/
theorem blankLine_emission (fuel : Nat) (l : Scanner) (t : Token) (l2 : Scanner)
    (hsp : l.start = l.pos) (h : Next fuel l = some (t, l2)) (ht : t.typ = Ty.BlankLine) :
    t.text = [10] ∧ l2.line = l.line + 1 ∧
    l2.lastEnum = { typ := enumType.none, val := 0, auto := false } ∧
    l2.lastMarkup = (if l.types1 = Ty.Comment then Ty.EOF else l.lastMarkup) := by
  unfold Next at h
  rcases hl : lexAny fuel (preload l) with _ | s <;> rw [hl] at h
  · simp at h
  simp only [Option.map_some'] at h
  have hts : s.token = t := congrArg Prod.fst (Option.some.inj h)
  have hl2 : s = l2 := congrArg Prod.snd (Option.some.inj h)
  rcases lexAny_shape _ _ _ hl with ⟨hs, hre⟩ | ⟨_, _, hbl⟩
  · exfalso
    rw [← hts, hs, next_token] at ht
    have hpre : (preload l).token.typ = Ty.EOF := rfl
    rw [hpre] at ht
    exact absurd ht (by decide)
  · obtain ⟨hs, h10⟩ := hbl (by rw [← hts] at ht; exact ht)
    have hf := lexBlankLine_fields (preload l) hsp h10
    rw [← hts, ← hl2, hs]
    exact hf

/-- C1 amended: when Next returns an Error token the buffered input has
been discarded and start and pos zeroed; and from such a state, whenever
the byte source is also exhausted, every subsequent call returns the EOF
token and leaves the state drained (so EOF repeats forever).  The claim's
unconditional terminality is refuted by error_not_terminal: with unread
bytes the scanner resumes. -/
theorem error_terminal :
    (∀ fuel l t l2, Next fuel l = some (t, l2) → t.typ = Ty.Error →
       l2.input = [] ∧ l2.start = 0 ∧ l2.pos = 0) ∧
    (∀ fuel l, l.input = [] → l.start = 0 → l.pos = 0 → l.reader = [] →
       (Next fuel l).map (fun p => (p.1.typ, p.2.input, p.2.start, p.2.pos, p.2.reader)) =
         some (Ty.EOF, [], 0, 0, [])) := by
  constructor
  · intro fuel l t l2 h ht
    unfold Next at h
    rcases hl : lexAny fuel (preload l) with _ | s <;> rw [hl] at h
    · simp at h
    simp only [Option.map_some'] at h
    have hts : s.token = t := congrArg Prod.fst (Option.some.inj h)
    have hl2 : s = l2 := congrArg Prod.snd (Option.some.inj h)
    rcases lexAny_shape _ _ _ hl with ⟨hs, _⟩ | ⟨_, herr, _⟩
    · exfalso
      rw [← hts, hs, next_token] at ht
      have hpre : (preload l).token.typ = Ty.EOF := rfl
      rw [hpre] at ht
      exact absurd ht (by decide)
    · rw [← hl2]
      exact herr (by rw [← hts] at ht; exact ht)
  · intro fuel l h1 h2 h3 h4
    rcases l with ⟨rd, dn, inp, lr, lw, ln, ps, st, tk, t0, t1, ind, lm, le⟩
    simp only [] at h1 h2 h3 h4
    subst h1; subst h2; subst h3; subst h4
    cases dn <;>
      simp [Next, lexAny, preload, next, readRune, refill, loadLine, readLine, eof]

/-- Witness for C7 at the input "\nX". -/
theorem blankLine_emission_witness :
    (Next 50 (New (ascii "\nX"))).map (fun p => (p.1.typ, p.1.text)) =
      some (Ty.BlankLine, [10]) ∧
    (Next 50 (New (ascii "\nX"))).map (fun p => (p.2.line, p.2.lastEnum)) =
      some ((New (ascii "\nX")).line + 1,
            { typ := enumType.none, val := 0, auto := false }) := by
  rcases hev : Next 50 (New (ascii "\nX")) with _ | ⟨t, l2⟩
  · exact absurd hev (by decide)
  · have ht : t.typ = Ty.BlankLine := by
      have h0 : (Next 50 (New (ascii "\nX"))).map (fun p => p.1.typ) = some Ty.BlankLine := by
        decide
      rw [hev] at h0
      simpa using h0
    have hb := blankLine_emission 50 (New (ascii "\nX")) t l2 rfl hev ht
    simp [ht, hb.1, hb.2.1, hb.2.2.1]

/-- C1 counterexample: on the source "`\nX" the first Next call returns the
Error token, yet the second call returns a Paragraph token (the scanner
reloads the still-unread "X" from the byte source), not EOF. -/
theorem error_not_terminal :
    (Next 200 (New (ascii "`\nX"))).map (fun p => p.1.typ) = some Ty.Error ∧
    ((Next 200 (New (ascii "`\nX"))).bind fun p => Next 200 p.2).map (fun p => p.1.typ) =
      some Ty.Paragraph := by
  constructor
  · decide
  · decide

/-- Witness for C1 on the input "`" (error, then drained EOF loop). -/
theorem error_terminal_witness :
    (Next 50 (New (ascii "`"))).map (fun p => (p.1.typ, p.2.input, p.2.start, p.2.pos)) =
      some (Ty.Error, [], 0, 0) ∧
    (Next 50 c1ErrState).map (fun p => (p.1.typ, p.2.input, p.2.start, p.2.pos, p.2.reader)) =
      some (Ty.EOF, [], 0, 0, []) := by
  constructor
  · rcases hev : Next 50 (New (ascii "`")) with _ | ⟨t, l2⟩
    · exact absurd hev (by decide)
    · have ht : t.typ = Ty.Error := by
        have h0 : (Next 50 (New (ascii "`"))).map (fun p => p.1.typ) = some Ty.Error := by decide
        rw [hev] at h0
        simpa using h0
      have hz := error_terminal.1 50 (New (ascii "`")) t l2 hev ht
      simp [ht, hz.1, hz.2.1, hz.2.2]
  · exact error_terminal.2 50 c1ErrState rfl rfl rfl rfl


/-- The decoder never yields a negative rune: every branch returns a byte
value, an assembled code point, or RuneError. -/
theorem decodeRune_nonneg : ∀ s : List Nat, 0 ≤ (decodeRune s).1 := by
  intro s
  match s with
  | [] => simp [decodeRune]
  | b0 :: rest =>
    simp only [decodeRune]
    split_ifs with hb
    · omega
    · rcases h : utf8Accept b0 with _ | ⟨sz, lo, hi⟩ <;> simp only []
      · omega
      · rcases rest with _ | ⟨b1, rest1⟩ <;> simp only []
        · omega
        · split_ifs <;> try omega
          all_goals rcases rest1 with _ | ⟨b2, rest2⟩ <;> simp only [] <;> try omega
          all_goals split_ifs <;> try omega
          all_goals rcases rest2 with _ | ⟨b3, rest3⟩ <;> simp only [] <;> try omega
          all_goals split_ifs <;> omega

/-- next on a state whose cursor sits on a plain ASCII byte: consume that
byte. -/
theorem next_ascii (l : Scanner) (b : Nat) (rest : List Nat) (hb : b < 0x80)
    (hdrop : l.input.drop l.pos = b :: rest) :
    next l = { l with lastRune := (b : Int), lastWidth := 1, pos := l.pos + 1 } := by
  have hlt : l.pos < l.input.length := by
    have hlen := congrArg List.length hdrop
    rw [List.length_drop] at hlen
    simp only [List.length_cons] at hlen
    omega
  have hrefill : refill l = l := by
    unfold refill
    rw [if_neg]
    rintro ⟨-, h2⟩
    omega
  have h1 : (readRune l).1 = ((b : Int), 1) := by
    rw [readRune_fst, hrefill, if_neg (by omega), hdrop, decodeRune_ascii b rest hb]
  rw [next_eq, hrefill, h1]

theorem skipToNL_exit (fuel : Nat) (r : Int) (l : Scanner) (hr : r = eof ∨ r = 10) :
    skipToNL (fuel + 1) r l = some (r, l) := by
  unfold skipToNL
  rw [if_pos hr]

theorem skipToNL_step (fuel : Nat) (r : Int) (l : Scanner) (hr : ¬(r = eof ∨ r = 10)) :
    skipToNL (fuel + 1) r l = skipToNL fuel (next l).lastRune (next l) := by
  show (if r = eof ∨ r = 10 then some (r, l)
        else skipToNL fuel (next l).lastRune (next l)) = _
  rw [if_neg hr]

/-- skipToNL over a tail of k copies of an ASCII adornment byte followed by
a newline: it consumes them all plus the newline and stops with rune 10. -/
theorem skipToNL_replicate (c : Int) (hc33 : 33 ≤ c) (hc126 : c ≤ 126) :
    ∀ (k fuel : Nat) (l : Scanner), k + 2 ≤ fuel →
      l.input.drop l.pos = List.replicate k c.toNat ++ [10] →
      skipToNL fuel c l =
        some (10, { l with lastRune := 10, lastWidth := 1, pos := l.pos + (k + 1) }) := by
  have heof : eof = -1 := rfl
  have hcne : ¬(c = eof ∨ c = 10) := by rintro (h | h) <;> omega
  intro k
  induction k with
  | zero =>
    intro fuel l hf hdrop
    obtain ⟨f, rfl⟩ : ∃ f, fuel = f + 2 := ⟨fuel - 2, by omega⟩
    simp only [List.replicate, List.nil_append] at hdrop
    rw [skipToNL_step (f + 1) c l hcne, next_ascii l 10 [] (by omega) hdrop]
    dsimp only
    rw [skipToNL_exit f _ _ (Or.inr (by norm_num))]
    norm_num
  | succ k ih =>
    intro fuel l hf hdrop
    obtain ⟨f, rfl⟩ : ∃ f, fuel = f + 3 := ⟨fuel - 3, by omega⟩
    rw [List.replicate_succ, List.cons_append] at hdrop
    have hcast : ((c.toNat : Int)) = c := Int.toNat_of_nonneg (by omega)
    rw [skipToNL_step (f + 2) c l hcne,
        next_ascii l c.toNat (List.replicate k c.toNat ++ [10]) (by omega) hdrop]
    dsimp only
    rw [hcast]
    have hdrop2 :
        ({ l with lastRune := c, lastWidth := 1, pos := l.pos + 1 } : Scanner).input.drop
          ({ l with lastRune := c, lastWidth := 1, pos := l.pos + 1 } : Scanner).pos =
        List.replicate k c.toNat ++ [10] := by
      dsimp only
      have h2 := congrArg (List.drop 1) hdrop
      rw [List.drop_drop] at h2
      simpa using h2
    rw [ih (f + 2) _ (by omega) hdrop2]
    dsimp only
    have harith : l.pos + 1 + (k + 1) = l.pos + (k + 1 + 1) := by omega
    rw [harith]

/-- Stripping the final newline of a newline-terminated line. -/
theorem trimSuffixNL_append_nl (xs : List Nat) : trimSuffixNL (xs ++ [10]) = xs := by
  unfold trimSuffixNL
  rw [if_pos (List.isSuffixOf_iff_suffix.mpr (List.suffix_append xs [10]))]
  simp

/-- Every adornment rune is printable ASCII. -/
theorem adornments_bounds : ∀ c ∈ adornments, 33 ≤ c ∧ c ≤ 126 := by decide


/-- loadLine on a state with pending input appends the next line. -/
theorem loadLine_append (l : Scanner) (hsp : l.start ≠ l.pos) :
    loadLine l = { l with reader := (readLine l.reader).2.1,
                          done := l.done || (readLine l.reader).2.2,
                          input := l.input ++ (readLine l.reader).1 } := by
  unfold loadLine
  dsimp only
  rw [if_neg hsp]

/-- peek on an unexhausted state whose cursor sits at the end of the buffer
with input pending: load the next line and decode its first rune (eof when
the source is spent). -/
theorem peek_at_end (l : Scanner) (hdone : l.done = false)
    (hpos : l.pos = l.input.length) (hsp : l.start ≠ l.pos) :
    (peek l).1 = (if (readLine l.reader).1 = [] then eof
                  else (decodeRune (readLine l.reader).1).1) ∧
    (peek l).2 = { l with reader := (readLine l.reader).2.1,
                          done := (readLine l.reader).2.2,
                          input := l.input ++ (readLine l.reader).1 } := by
  have hrefill : refill l = loadLine l := by
    unfold refill
    rw [if_pos ⟨by rw [hdone]; rfl, hpos⟩]
  have hload := loadLine_append l hsp
  rw [hdone, Bool.false_or] at hload
  constructor
  · show (readRune l).1.1 = _
    rw [readRune_fst, hrefill, hload]
    dsimp only
    rcases hbuf : (readLine l.reader).1 with _ | ⟨b0, bs⟩
    · rw [if_pos (by simp [hpos]), if_pos rfl]
    · rw [if_neg (by simp [hpos]), if_neg (by simp),
          hpos, List.drop_left]
  · rw [peek_snd, hrefill, hload]


/-- An empty next line or exhausted source is what peek reports after the
probe: eof or a newline rune. -/
theorem nextLine_iff (l : Scanner) :
    nextLineEmptyOrEOI l ↔
      ((readLine l.reader).1 = [] ∨ (decodeRune (readLine l.reader).1).1 = 10) := by
  constructor
  · rintro (h | h)
    · rw [← readLine_head] at h
      rcases hb : (readLine l.reader).1 with _ | ⟨b0, bs⟩
      · exact Or.inl rfl
      · rw [hb] at h
        simp only [List.head?_cons, Option.some.injEq] at h
        subst h
        rw [decodeRune_ascii 10 bs (by omega)]
        exact Or.inr (by norm_num)
    · left
      have hsplit := readLine_stripCR l.reader
      rw [h] at hsplit
      exact (List.append_eq_nil.mp hsplit.symm).1
  · rintro (h | h)
    · right
      have hsplit := readLine_stripCR l.reader
      rw [h, readLine_buf_nil l.reader h] at hsplit
      simpa [stripCR] using hsplit
    · left
      obtain ⟨hhead, -⟩ := decodeRune_eq_ten _ h
      rw [← readLine_head]
      exact hhead

set_option maxHeartbeats 1600000 in
/-- Body of isTransition once the types gate has passed: the classifier
succeeds, and answers true exactly for a long-enough adornment line whose
following line is empty or at end of input. -/
theorem isTransition_pass (fuel n : Nat) (c : Int) (l : Scanner)
    (hdone : l.done = false)
    (hc : c ∈ adornments)
    (hn : 2 ≤ n)
    (hpos : l.pos = l.start + 1)
    (hbuf : l.input.drop l.start = List.replicate n c.toNat ++ [10])
    (hfuel : n + 2 ≤ fuel)
    (hty : l.types1 = Ty.EOF ∨ l.types1 = Ty.BlankLine ∨
           (l.types1 = Ty.Space ∧ l.types0 = Ty.BlankLine)) :
    ∃ b l2, isTransition fuel l c = some (b, l2) ∧
      (b = true ↔ (4 ≤ n ∧ nextLineEmptyOrEOI l)) := by
  obtain ⟨hc33, hc126⟩ := adornments_bounds c hc
  have hcc : adornments.contains c = true := List.elem_iff.mpr hc
  obtain ⟨k, rfl⟩ : ∃ k, n = k + 1 := ⟨n - 1, by omega⟩
  have hlen : l.input.length = l.start + k + 2 := by
    have h := congrArg List.length hbuf
    rw [List.length_drop] at h
    simp only [List.length_append, List.length_replicate, List.length_cons,
      List.length_nil] at h
    omega
  have hdrop1 : l.input.drop l.pos = List.replicate k c.toNat ++ [10] := by
    have h2 := congrArg (List.drop 1) hbuf
    rw [List.drop_drop] at h2
    rw [hpos, h2, List.replicate_succ]
    simp
  have hskip := skipToNL_replicate c hc33 hc126 k fuel l (by omega) hdrop1
  have hs : trimSuffixNL (l.input.drop l.start) = List.replicate (k + 1) c.toNat := by
    rw [hbuf, trimSuffixNL_append_nl]
  have hpk := peek_at_end
    ({ l with lastRune := 10, lastWidth := 1, pos := l.pos + (k + 1) } : Scanner)
    hdone (by dsimp only; omega) (by dsimp only; omega)
  dsimp only at hpk
  unfold isTransition
  dsimp only
  rw [hs, hskip]
  simp only []
  rw [hpk.1]
  split_ifs with hg1 hg2 hg3 hb0 hcnd hcnd
  · exfalso
    rcases hty with h1 | h1 | ⟨h1, h0⟩ <;> rw [h1] at hg1 <;> simp_all
  · exfalso
    rw [hcc] at hg2
    simp at hg2
  · refine ⟨false, l, rfl, iff_of_false (by simp) ?_⟩
    rintro ⟨h4, -⟩
    simp only [minTransition, List.length_replicate, ne_eq, not_true_eq_false,
      or_false] at hg3
    omega
  · exfalso
    exact hcnd.1 rfl
  · refine ⟨true, _, rfl, iff_of_true rfl ?_⟩
    have h4 : 4 ≤ k + 1 := by
      simp only [minTransition, List.length_replicate, ne_eq, not_or, not_lt] at hg3
      exact hg3.1
    exact ⟨h4, (nextLine_iff l).mpr (Or.inl hb0)⟩
  · refine ⟨false, _, rfl, iff_of_false (by simp) ?_⟩
    rintro ⟨-, hnl⟩
    rcases (nextLine_iff l).mp hnl with h | h
    · exact hb0 h
    · exact hcnd.2 h
  · refine ⟨true, _, rfl, iff_of_true rfl ?_⟩
    have h4 : 4 ≤ k + 1 := by
      simp only [minTransition, List.length_replicate, ne_eq, not_or, not_lt] at hg3
      exact hg3.1
    have h10 : (decodeRune (readLine l.reader).1).1 = 10 := by
      rcases not_and_or.mp hcnd with h | h
      · exfalso
        apply h
        intro he
        have hnn := decodeRune_nonneg (readLine l.reader).1
        rw [he] at hnn
        exact absurd hnn (by norm_num [eof])
      · simpa using h
    exact ⟨h4, (nextLine_iff l).mpr (Or.inr h10)⟩


/-- isTransition answers false immediately when the types window does not
admit a transition. -/
theorem isTransition_tyFail (fuel : Nat) (l : Scanner) (r : Int)
    (hty : ¬(l.types1 = Ty.EOF ∨ l.types1 = Ty.BlankLine ∨
             (l.types1 = Ty.Space ∧ l.types0 = Ty.BlankLine))) :
    isTransition fuel l r = some (false, l) := by
  push_neg at hty
  unfold isTransition
  dsimp only
  rcases h1 : l.types1 <;>
    first
      | exact absurd h1 hty.1
      | exact absurd h1 hty.2.1
      | (rw [decide_eq_false (hty.2.2 h1)]; rfl)
      | rfl

/-- C5: for a scanner positioned just inside an adornment line (a full line
of n ≥ 2 copies of one adornment rune, the first already consumed),
isTransition succeeds and answers true exactly when types[1] is EOF or
BlankLine (or types[1] is Space with types[0] BlankLine), the line is at
least minTransition = 4 runes long, and the following line is empty or the
input ends there. -/
theorem isTransition_spec (fuel n : Nat) (c : Int) (l : Scanner)
    (hdone : l.done = false)
    (hc : c ∈ adornments)
    (hn : 2 ≤ n)
    (hpos : l.pos = l.start + 1)
    (hbuf : l.input.drop l.start = List.replicate n c.toNat ++ [10])
    (hfuel : n + 2 ≤ fuel) :
    ∃ b l2, isTransition fuel l c = some (b, l2) ∧
      (b = true ↔
        ((l.types1 = Ty.EOF ∨ l.types1 = Ty.BlankLine ∨
            (l.types1 = Ty.Space ∧ l.types0 = Ty.BlankLine)) ∧
          4 ≤ n ∧ nextLineEmptyOrEOI l)) := by
  by_cases hty : l.types1 = Ty.EOF ∨ l.types1 = Ty.BlankLine ∨
      (l.types1 = Ty.Space ∧ l.types0 = Ty.BlankLine)
  · obtain ⟨b, l2, heq, hiff⟩ :=
      isTransition_pass fuel n c l hdone hc hn hpos hbuf hfuel hty
    exact ⟨b, l2, heq, by rw [hiff]; exact (and_iff_right hty).symm⟩
  · exact ⟨false, l, isTransition_tyFail fuel l c hty,
      iff_of_false (by simp) fun h => hty h.1⟩

/-- Witness for C5 at a concrete state: the line "----" with a blank line
following, one dash consumed, fresh types window. -/
theorem isTransition_spec_witness :
    ∃ b l2, isTransition 100 c5State 45 = some (b, l2) ∧
      (b = true ↔
        ((c5State.types1 = Ty.EOF ∨ c5State.types1 = Ty.BlankLine ∨
            (c5State.types1 = Ty.Space ∧ c5State.types0 = Ty.BlankLine)) ∧
          4 ≤ 4 ∧ nextLineEmptyOrEOI c5State)) :=
  isTransition_spec 100 4 45 c5State (by decide) (by decide) (by decide)
    (by decide) (by decide) (by decide)

end scan
